import Mathlib

/-!
# github-webhook-nats-streaming: the webhook handler of `main.go`

A shallow embedding of `verifyGithubSignature` and of the HTTP handler that
`main` registers, with the parts of the Go standard library they call:
`crypto/sha1`, `crypto/hmac`, `crypto/subtle`, the verb `%x` of `fmt`,
`unicode/utf8`, `unicode/utf16`, `encoding/json` (scanner and decoder),
`html/template` (for templates of text and field actions) and
`net/http.Header.Get`.

Go strings and `[]byte` are both byte sequences, `List UInt8` here. The
handler is a function of the request, of the variables of `main` it closes
over and of the outcome of `sc.Publish`; it returns the status written and the
list of its effects. The calls of `log.Print` are left out.
-/

namespace GithubWebhook

/-- A Go `string` or `[]byte`: a sequence of bytes. -/
abbrev Bytes := List UInt8

/-- The bytes of an ASCII string literal of the source. -/
def ascii (s : String) : Bytes := s.data.map fun c => UInt8.ofNat c.toNat

/-! ## crypto/sha1 -/

namespace sha1

/-- A 32-bit word: a natural number reduced modulo `2^32`. -/
def w32 (n : Nat) : Nat := n % 4294967296

/-- Go `bits.RotateLeft32`. -/
def rotl (x k : Nat) : Nat := w32 (x <<< k) ||| (x >>> (32 - k))

/-- Bitwise complement of a 32-bit word. -/
def not32 (x : Nat) : Nat := 4294967295 - w32 x

/-- Big-endian 32-bit word of four bytes. -/
def word (a b c d : UInt8) : Nat :=
  a.toNat * 16777216 + b.toNat * 65536 + c.toNat * 256 + d.toNat

/-- The words of a block, four bytes each (a trailing partial word is dropped;
blocks are always multiples of four bytes). -/
def words : Bytes → List Nat
  | a :: b :: c :: d :: rest => word a b c d :: words rest
  | _ => []

/-- Big-endian bytes of a 32-bit word. -/
def wordBytes (x : Nat) : Bytes :=
  [UInt8.ofNat (x >>> 24), UInt8.ofNat (x >>> 16), UInt8.ofNat (x >>> 8), UInt8.ofNat x]

/-- Big-endian bytes of a 64-bit length. -/
def lenBytes (n : Nat) : Bytes :=
  wordBytes (w32 (n >>> 32)) ++ wordBytes (w32 n)

/-- Message padding: `0x80`, zeros up to 56 mod 64, then the bit length. -/
def pad (msg : Bytes) : Bytes :=
  let n := msg.length
  let zeros := (119 - n % 64) % 64
  msg ++ 128 :: List.replicate zeros 0 ++ lenBytes (n * 8 % 18446744073709551616)

/-- The message schedule, newest word first: extends the 16 words of a block
to 80. `ws` holds the words computed so far in reverse order. -/
def schedule : Nat → List Nat → List Nat
  | 0, ws => ws
  | n + 1, ws =>
    match ws with
    | _ :: _ :: w3 :: _ :: _ :: _ :: _ :: w8 :: _ :: _ :: _ :: _ :: _ :: w14 :: _ :: w16 :: _ =>
      schedule n (rotl (w3 ^^^ w8 ^^^ w14 ^^^ w16) 1 :: ws)
    | _ => ws

/-- The five chaining values. -/
structure State where
  a : Nat
  b : Nat
  c : Nat
  d : Nat
  e : Nat

/-- The initial chaining values `init0 .. init4`. -/
def init : State := ⟨1732584193, 4023233417, 2562383102, 271733878, 3285377520⟩

/-- One of the 80 rounds, with round index `i` and schedule word `w`. -/
def round (i : Nat) (s : State) (w : Nat) : State :=
  let f :=
    if i < 20 then (s.b &&& s.c) ||| (not32 s.b &&& s.d)
    else if i < 40 then s.b ^^^ s.c ^^^ s.d
    else if i < 60 then ((s.b ||| s.c) &&& s.d) ||| (s.b &&& s.c)
    else s.b ^^^ s.c ^^^ s.d
  let k :=
    if i < 20 then 1518500249
    else if i < 40 then 1859775393
    else if i < 60 then 2400959708
    else 3395469782
  let t := w32 (rotl s.a 5 + f + s.e + w + k)
  ⟨t, s.a, rotl s.b 30, s.c, s.d⟩

/-- The rounds over the schedule words in order. -/
def rounds : Nat → State → List Nat → State
  | _, s, [] => s
  | i, s, w :: ws => rounds (i + 1) (round i s w) ws

/-- Compression of one 64-byte block into the chaining state. -/
def block (h : State) (blk : Bytes) : State :=
  let ws := (schedule 64 (words blk).reverse).reverse
  let s := rounds 0 h ws
  ⟨w32 (h.a + s.a), w32 (h.b + s.b), w32 (h.c + s.c), w32 (h.d + s.d), w32 (h.e + s.e)⟩

/-- Compression of all the blocks of a padded message; `n` counts the blocks. -/
def blocks : Nat → State → Bytes → State
  | 0, h, _ => h
  | n + 1, h, data => blocks n (block h (data.take 64)) (data.drop 64)

/-- The SHA-1 digest (20 bytes) of a message. -/
def sum (msg : Bytes) : Bytes :=
  let p := pad msg
  let h := blocks (p.length / 64) init p
  wordBytes h.a ++ wordBytes h.b ++ wordBytes h.c ++ wordBytes h.d ++ wordBytes h.e

end sha1

/-! ## crypto/hmac -/

namespace hmac

/-- The key of `hmac.New(sha1.New, key)` brought to the block size of 64: a
longer key is hashed first, then zero padding. -/
def blockKey (key : Bytes) : Bytes :=
  let k := if key.length > 64 then sha1.sum key else key
  k ++ List.replicate (64 - k.length) 0

/-- The MAC `mac.Sum(nil)` after `mac.Write(b)` on `hmac.New(sha1.New, key)`. -/
def sumSHA1 (key b : Bytes) : Bytes :=
  let k := blockKey key
  let ipad := k.map fun x => x ^^^ 54
  let opad := k.map fun x => x ^^^ 92
  sha1.sum (opad ++ sha1.sum (ipad ++ b))

end hmac

/-! ## fmt and crypto/subtle -/

/-- The lowercase hexadecimal digit of a value below 16. -/
def hexDigit (n : Nat) : UInt8 :=
  if n < 10 then UInt8.ofNat (48 + n) else UInt8.ofNat (87 + n)

/-- The verb `%x` of `fmt` on a byte slice: two lowercase digits per byte. -/
def hexEncode : Bytes → Bytes
  | [] => []
  | b :: rest => hexDigit (b.toNat / 16) :: hexDigit (b.toNat % 16) :: hexEncode rest

/-- Go `subtle.ConstantTimeByteEq`: `int((uint32(x^y) - 1) >> 31)`. -/
def ConstantTimeByteEq (x y : UInt8) : Nat :=
  (((x ^^^ y).toNat + 4294967296 - 1) % 4294967296) >>> 31

/-- The accumulation loop of `subtle.ConstantTimeCompare`:
`v |= x[i] ^ y[i]` over the common indices. -/
def xorAccumulate : UInt8 → Bytes → Bytes → UInt8
  | v, x :: xs, y :: ys => xorAccumulate (v ||| (x ^^^ y)) xs ys
  | v, _, _ => v

/-- Go `subtle.ConstantTimeCompare`: 0 when the lengths differ, else 1 exactly
when no position differs. -/
def ConstantTimeCompare (x y : Bytes) : Nat :=
  if x.length != y.length then 0
  else ConstantTimeByteEq (xorAccumulate 0 x y) 0

/-- Go `hmac.Equal`. -/
def hmac.Equal (mac1 mac2 : Bytes) : Bool :=
  ConstantTimeCompare mac1 mac2 == 1

/-- The string `fmt.Sprintf("sha1=%x", mac)`. -/
def formatSignature (mac : Bytes) : Bytes := ascii "sha1=" ++ hexEncode mac

/-- Function `verifyGithubSignature` of `main.go`. -/
def verifyGithubSignature (sig secret : Bytes) (b : Bytes) : Bool :=
  let mac := hmac.sumSHA1 secret b
  let exp := formatSignature mac
  hmac.Equal exp sig


/-- The byte of an ASCII character literal of the source. -/
def ch (c : Char) : UInt8 := UInt8.ofNat c.toNat

/-! ## unicode/utf8 and unicode/utf16 -/

namespace utf8

/-- Go `utf8.RuneError`, the replacement character U+FFFD. -/
def RuneError : Nat := 65533

/-- Whether a byte is a continuation byte `10xxxxxx`. -/
def isCont (b : UInt8) : Bool := 128 ≤ b && b ≤ 191

/-- Go `utf8.DecodeRune`: the first rune of a byte sequence and its width; an
invalid or incomplete encoding gives `(RuneError, 1)`, no input `(RuneError, 0)`. -/
def DecodeRune (p : Bytes) : Nat × Nat :=
  match p with
  | [] => (RuneError, 0)
  | b0 :: rest =>
    if b0 < 128 then (b0.toNat, 1)
    else if 194 ≤ b0 && b0 ≤ 223 then
      match rest with
      | b1 :: _ =>
        if isCont b1 then ((b0.toNat % 32) * 64 + b1.toNat % 64, 2) else (RuneError, 1)
      | _ => (RuneError, 1)
    else if 224 ≤ b0 && b0 ≤ 239 then
      match rest with
      | b1 :: b2 :: _ =>
        let lo : UInt8 := if b0 == 224 then 160 else 128
        let hi : UInt8 := if b0 == 237 then 159 else 191
        if lo ≤ b1 && b1 ≤ hi && isCont b2 then
          ((b0.toNat % 16) * 4096 + (b1.toNat % 64) * 64 + b2.toNat % 64, 3)
        else (RuneError, 1)
      | _ => (RuneError, 1)
    else if 240 ≤ b0 && b0 ≤ 244 then
      match rest with
      | b1 :: b2 :: b3 :: _ =>
        let lo : UInt8 := if b0 == 240 then 144 else 128
        let hi : UInt8 := if b0 == 244 then 143 else 191
        if lo ≤ b1 && b1 ≤ hi && isCont b2 && isCont b3 then
          ((b0.toNat % 8) * 262144 + (b1.toNat % 64) * 4096 + (b2.toNat % 64) * 64
            + b3.toNat % 64, 4)
        else (RuneError, 1)
      | _ => (RuneError, 1)
    else (RuneError, 1)

/-- Go `utf8.EncodeRune`: surrogates and values above U+10FFFF are written as
the replacement character. -/
def EncodeRune (r : Nat) : Bytes :=
  if r ≤ 127 then [UInt8.ofNat r]
  else if r ≤ 2047 then [UInt8.ofNat (192 + r / 64), UInt8.ofNat (128 + r % 64)]
  else if r > 1114111 || (55296 ≤ r && r ≤ 57343) then [239, 191, 189]
  else if r ≤ 65535 then
    [UInt8.ofNat (224 + r / 4096), UInt8.ofNat (128 + r / 64 % 64), UInt8.ofNat (128 + r % 64)]
  else
    [UInt8.ofNat (240 + r / 262144), UInt8.ofNat (128 + r / 4096 % 64),
      UInt8.ofNat (128 + r / 64 % 64), UInt8.ofNat (128 + r % 64)]

end utf8

namespace utf16

/-- Go `utf16.IsSurrogate`. -/
def IsSurrogate (r : Nat) : Bool := 55296 ≤ r && r < 57344

/-- Go `utf16.DecodeRune`: the code point of a surrogate pair, U+FFFD when the
pair is not valid. The second rune is absent when `getu4` returned -1. -/
def DecodeRune (r1 : Nat) (r2 : Option Nat) : Nat :=
  match r2 with
  | some r2 =>
    if 55296 ≤ r1 && r1 < 56320 && 56320 ≤ r2 && r2 < 57344 then
      (r1 - 55296) * 1024 + (r2 - 56320) + 65536
    else 65533
  | none => 65533

end utf16

/-! ## encoding/json: the scanner (`scanner.go`) -/

namespace json

/-- Go `isSpace`. -/
def isSpace (c : UInt8) : Bool :=
  c ≤ ch ' ' && (c == ch ' ' || c == ch '\t' || c == ch '\r' || c == ch '\n')

/-- The return codes of the scanner's transition functions. -/
inductive Op
  | scanContinue | scanBeginLiteral | scanBeginObject | scanObjectKey | scanObjectValue
  | scanEndObject | scanBeginArray | scanArrayValue | scanEndArray | scanSkipSpace
  | scanEnd | scanError
deriving DecidableEq, Repr

/-- The entries of the scanner's `parseState` stack. -/
inductive ParseState
  | parseObjectKey | parseObjectValue | parseArrayValue
deriving DecidableEq, Repr

/-- The transition functions a scanner's `step` field can hold. -/
inductive Step
  | stateBeginValueOrEmpty | stateBeginValue | stateBeginStringOrEmpty | stateBeginString
  | stateEndValue | stateEndTop
  | stateInString | stateInStringEsc | stateInStringEscU | stateInStringEscU1
  | stateInStringEscU12 | stateInStringEscU123
  | stateNeg | state1 | state0 | stateDot | stateDot0 | stateE | stateESign | stateE0
  | stateT | stateTr | stateTru | stateF | stateFa | stateFal | stateFals
  | stateN | stateNu | stateNul
  | stateError
deriving DecidableEq, Repr

/-- Go `scanner`: the current transition function, whether the top-level value
is complete, the stack of open composites (innermost first), and whether an
error has been recorded. -/
structure scanner where
  step : Step
  endTop : Bool
  parseState : List ParseState
  err : Bool
deriving DecidableEq, Repr

/-- Go `maxNestingDepth`. -/
def maxNestingDepth : Nat := 10000

/-- Go `scanner.reset`. -/
def scanner.reset : scanner := ⟨.stateBeginValue, false, [], false⟩

/-- Go `scanner.error`: records the error and moves to `stateError`. -/
def scanner.error (s : scanner) : scanner × Op :=
  ({ s with step := .stateError, err := true }, .scanError)

/-- Go `scanner.pushParseState`. -/
def scanner.pushParseState (s : scanner) (newParseState : ParseState) (successState : Op) :
    scanner × Op :=
  let s1 := { s with parseState := newParseState :: s.parseState }
  if s1.parseState.length ≤ maxNestingDepth then (s1, successState) else s1.error

/-- Go `scanner.popParseState`. -/
def scanner.popParseState (s : scanner) : scanner :=
  let ps := s.parseState.tail
  if ps.length == 0 then { s with parseState := ps, step := .stateEndTop, endTop := true }
  else { s with parseState := ps, step := .stateEndValue }

/-- Go `stateEndTop`: only space may follow the top-level value. The error is
recorded but the return code is `scanEnd`. -/
def stateEndTop (s : scanner) (c : UInt8) : scanner × Op :=
  if !isSpace c then (s.error.1, .scanEnd) else (s, .scanEnd)

/-- Go `stateEndValue`: the state after a complete value. -/
def stateEndValue (s : scanner) (c : UInt8) : scanner × Op :=
  match s.parseState with
  | [] => stateEndTop { s with step := .stateEndTop, endTop := true } c
  | ps :: rest =>
    if isSpace c then ({ s with step := .stateEndValue }, .scanSkipSpace)
    else
      match ps with
      | .parseObjectKey =>
        if c == ch ':' then
          ({ s with parseState := .parseObjectValue :: rest, step := .stateBeginValue },
            .scanObjectKey)
        else s.error
      | .parseObjectValue =>
        if c == ch ',' then
          ({ s with parseState := .parseObjectKey :: rest, step := .stateBeginString },
            .scanObjectValue)
        else if c == ch '}' then (s.popParseState, .scanEndObject)
        else s.error
      | .parseArrayValue =>
        if c == ch ',' then ({ s with step := .stateBeginValue }, .scanArrayValue)
        else if c == ch ']' then (s.popParseState, .scanEndArray)
        else s.error

/-- Go `stateBeginValue`. -/
def stateBeginValue (s : scanner) (c : UInt8) : scanner × Op :=
  if isSpace c then (s, .scanSkipSpace)
  else if c == ch '{' then
    { s with step := .stateBeginStringOrEmpty }.pushParseState .parseObjectKey .scanBeginObject
  else if c == ch '[' then
    { s with step := .stateBeginValueOrEmpty }.pushParseState .parseArrayValue .scanBeginArray
  else if c == ch '"' then ({ s with step := .stateInString }, .scanBeginLiteral)
  else if c == ch '-' then ({ s with step := .stateNeg }, .scanBeginLiteral)
  else if c == ch '0' then ({ s with step := .state0 }, .scanBeginLiteral)
  else if c == ch 't' then ({ s with step := .stateT }, .scanBeginLiteral)
  else if c == ch 'f' then ({ s with step := .stateF }, .scanBeginLiteral)
  else if c == ch 'n' then ({ s with step := .stateN }, .scanBeginLiteral)
  else if ch '1' ≤ c && c ≤ ch '9' then ({ s with step := .state1 }, .scanBeginLiteral)
  else s.error

/-- Go `stateBeginValueOrEmpty`: after `[`. -/
def stateBeginValueOrEmpty (s : scanner) (c : UInt8) : scanner × Op :=
  if isSpace c then (s, .scanSkipSpace)
  else if c == ch ']' then stateEndValue s c
  else stateBeginValue s c

/-- Go `stateBeginString`: after `,` in an object. -/
def stateBeginString (s : scanner) (c : UInt8) : scanner × Op :=
  if isSpace c then (s, .scanSkipSpace)
  else if c == ch '"' then ({ s with step := .stateInString }, .scanBeginLiteral)
  else s.error

/-- Go `stateBeginStringOrEmpty`: after `{`. -/
def stateBeginStringOrEmpty (s : scanner) (c : UInt8) : scanner × Op :=
  if isSpace c then (s, .scanSkipSpace)
  else if c == ch '}' then
    stateEndValue { s with parseState := .parseObjectValue :: s.parseState.tail } c
  else stateBeginString s c

/-- Whether a byte is a hexadecimal digit, as the `stateInStringEscU` family
tests it. -/
def isHex (c : UInt8) : Bool :=
  (ch '0' ≤ c && c ≤ ch '9') || (ch 'a' ≤ c && c ≤ ch 'f') || (ch 'A' ≤ c && c ≤ ch 'F')

/-- Whether a byte is a decimal digit. -/
def isDigit (c : UInt8) : Bool := ch '0' ≤ c && c ≤ ch '9'

/-- Go `stateInString`. -/
def stateInString (s : scanner) (c : UInt8) : scanner × Op :=
  if c == ch '"' then ({ s with step := .stateEndValue }, .scanContinue)
  else if c == ch '\\' then ({ s with step := .stateInStringEsc }, .scanContinue)
  else if c < 32 then s.error
  else (s, .scanContinue)

/-- Go `stateInStringEsc`. -/
def stateInStringEsc (s : scanner) (c : UInt8) : scanner × Op :=
  if c == ch 'b' || c == ch 'f' || c == ch 'n' || c == ch 'r' || c == ch 't' || c == ch '\\'
      || c == ch '/' || c == ch '"' then
    ({ s with step := .stateInString }, .scanContinue)
  else if c == ch 'u' then ({ s with step := .stateInStringEscU }, .scanContinue)
  else s.error

/-- The four states `stateInStringEscU` .. `stateInStringEscU123`: a
hexadecimal digit moves to `next`. -/
def stateInStringEscHex (next : Step) (s : scanner) (c : UInt8) : scanner × Op :=
  if isHex c then ({ s with step := next }, .scanContinue) else s.error

/-- Go `state0`: after `0` or at the end of the integer part. -/
def state0 (s : scanner) (c : UInt8) : scanner × Op :=
  if c == ch '.' then ({ s with step := .stateDot }, .scanContinue)
  else if c == ch 'e' || c == ch 'E' then ({ s with step := .stateE }, .scanContinue)
  else stateEndValue s c

/-- Go `state1`: inside the integer part. -/
def state1 (s : scanner) (c : UInt8) : scanner × Op :=
  if isDigit c then ({ s with step := .state1 }, .scanContinue) else state0 s c

/-- Go `stateNeg`: after `-`. -/
def stateNeg (s : scanner) (c : UInt8) : scanner × Op :=
  if c == ch '0' then ({ s with step := .state0 }, .scanContinue)
  else if ch '1' ≤ c && c ≤ ch '9' then ({ s with step := .state1 }, .scanContinue)
  else s.error

/-- Go `stateDot`: after the decimal point. -/
def stateDot (s : scanner) (c : UInt8) : scanner × Op :=
  if isDigit c then ({ s with step := .stateDot0 }, .scanContinue) else s.error

/-- Go `stateDot0`: inside the fraction. -/
def stateDot0 (s : scanner) (c : UInt8) : scanner × Op :=
  if isDigit c then (s, .scanContinue)
  else if c == ch 'e' || c == ch 'E' then ({ s with step := .stateE }, .scanContinue)
  else stateEndValue s c

/-- Go `stateESign`: after the sign of the exponent. -/
def stateESign (s : scanner) (c : UInt8) : scanner × Op :=
  if isDigit c then ({ s with step := .stateE0 }, .scanContinue) else s.error

/-- Go `stateE`: after `e` or `E`. -/
def stateE (s : scanner) (c : UInt8) : scanner × Op :=
  if c == ch '+' || c == ch '-' then ({ s with step := .stateESign }, .scanContinue)
  else stateESign s c

/-- Go `stateE0`: inside the exponent. -/
def stateE0 (s : scanner) (c : UInt8) : scanner × Op :=
  if isDigit c then (s, .scanContinue) else stateEndValue s c

/-- The states inside `true`, `false` and `null`: the byte `want` moves to
`next`. -/
def stateLetter (want : Char) (next : Step) (s : scanner) (c : UInt8) : scanner × Op :=
  if c == ch want then ({ s with step := next }, .scanContinue) else s.error

/-- The call `s.step(s, c)`. -/
def scanner.call (s : scanner) (c : UInt8) : scanner × Op :=
  match s.step with
  | .stateBeginValueOrEmpty => stateBeginValueOrEmpty s c
  | .stateBeginValue => stateBeginValue s c
  | .stateBeginStringOrEmpty => stateBeginStringOrEmpty s c
  | .stateBeginString => stateBeginString s c
  | .stateEndValue => stateEndValue s c
  | .stateEndTop => stateEndTop s c
  | .stateInString => stateInString s c
  | .stateInStringEsc => stateInStringEsc s c
  | .stateInStringEscU => stateInStringEscHex .stateInStringEscU1 s c
  | .stateInStringEscU1 => stateInStringEscHex .stateInStringEscU12 s c
  | .stateInStringEscU12 => stateInStringEscHex .stateInStringEscU123 s c
  | .stateInStringEscU123 => stateInStringEscHex .stateInString s c
  | .stateNeg => stateNeg s c
  | .state1 => state1 s c
  | .state0 => state0 s c
  | .stateDot => stateDot s c
  | .stateDot0 => stateDot0 s c
  | .stateE => stateE s c
  | .stateESign => stateESign s c
  | .stateE0 => stateE0 s c
  | .stateT => stateLetter 'r' .stateTr s c
  | .stateTr => stateLetter 'u' .stateTru s c
  | .stateTru => stateLetter 'e' .stateEndValue s c
  | .stateF => stateLetter 'a' .stateFa s c
  | .stateFa => stateLetter 'l' .stateFal s c
  | .stateFal => stateLetter 's' .stateFals s c
  | .stateFals => stateLetter 'e' .stateEndValue s c
  | .stateN => stateLetter 'u' .stateNu s c
  | .stateNu => stateLetter 'l' .stateNul s c
  | .stateNul => stateLetter 'l' .stateEndValue s c
  | .stateError => (s, .scanError)

/-- Go `scanner.eof`: whether the input may end here. It returns `scanEnd`
(true) or `scanError` (false). -/
def scanner.eof (s : scanner) : Bool :=
  if s.err then false
  else if s.endTop then true
  else
    let s1 := (s.call (ch ' ')).1
    s1.endTop

/-- The loop of Go `checkValid` over the input from a scanner state: `none`
when a step returns `scanError`. -/
def scanAll : scanner → Bytes → Option scanner
  | s, [] => some s
  | s, c :: rest =>
    match s.call c with
    | (_, .scanError) => none
    | (s1, _) => scanAll s1 rest

/-- Go `checkValid`: whether the data is one syntactically valid JSON value. -/
def checkValid (data : Bytes) : Bool :=
  match scanAll scanner.reset data with
  | none => false
  | some s => s.eof

end json


namespace json

/-! ## encoding/json: the decoder (`decode.go`) -/

/-- The value of a hexadecimal digit, as the loop of Go `getu4` computes it. -/
def hexVal (c : UInt8) : Option Nat :=
  if ch '0' ≤ c && c ≤ ch '9' then some (c.toNat - 48)
  else if ch 'a' ≤ c && c ≤ ch 'f' then some (c.toNat - 97 + 10)
  else if ch 'A' ≤ c && c ≤ ch 'F' then some (c.toNat - 65 + 10)
  else none

/-- Go `getu4`: the rune of a leading `\uXXXX`, `none` for its result -1. -/
def getu4 (s : Bytes) : Option Nat :=
  match s with
  | b0 :: b1 :: h1 :: h2 :: h3 :: h4 :: _ =>
    if b0 != ch '\\' || b1 != ch 'u' then none
    else
      match hexVal h1, hexVal h2, hexVal h3, hexVal h4 with
      | some a, some b, some c, some d => some (((a * 16 + b) * 16 + c) * 16 + d)
      | _, _, _, _ => none
  | _ => none

/-- The second loop of Go `unquoteBytes` over the text between the quotes.
The counter is the number of bytes still to pass over because an escape or a
multi-byte rune starting earlier has consumed them; `none` is the result
`ok == false`. -/
def unquoteLoop : Bytes → Nat → Option Bytes
  | [], _ => some []
  | _ :: rest, k + 1 => unquoteLoop rest k
  | c :: rest, 0 =>
    if c == ch '\\' then
      match rest with
      | [] => none
      | e :: _ =>
        if e == ch '"' || e == ch '\\' || e == ch '/' || e == ch '\'' then
          (unquoteLoop rest 1).map (e :: ·)
        else if e == ch 'b' then (unquoteLoop rest 1).map (8 :: ·)
        else if e == ch 'f' then (unquoteLoop rest 1).map (12 :: ·)
        else if e == ch 'n' then (unquoteLoop rest 1).map (10 :: ·)
        else if e == ch 'r' then (unquoteLoop rest 1).map (13 :: ·)
        else if e == ch 't' then (unquoteLoop rest 1).map (9 :: ·)
        else if e == ch 'u' then
          match getu4 (c :: rest) with
          | none => none
          | some rr =>
            if utf16.IsSurrogate rr then
              let dec := utf16.DecodeRune rr (getu4 (rest.drop 5))
              if dec != 65533 then (unquoteLoop rest 11).map (utf8.EncodeRune dec ++ ·)
              else (unquoteLoop rest 5).map (utf8.EncodeRune 65533 ++ ·)
            else (unquoteLoop rest 5).map (utf8.EncodeRune rr ++ ·)
        else none
    else if c == ch '"' || c < 32 then none
    else if c < 128 then (unquoteLoop rest 0).map (c :: ·)
    else
      let (rr, size) := utf8.DecodeRune (c :: rest)
      (unquoteLoop rest (size - 1)).map (utf8.EncodeRune rr ++ ·)

/-- Go `unquoteBytes`: the text of a quoted string literal. The first loop of
the Go function returns the text unchanged when it needs no rewriting, which
the second loop does as well. -/
def unquoteBytes (s : Bytes) : Option Bytes :=
  match s with
  | q :: rest =>
    if s.length < 2 || q != ch '"' || rest.getLast? != some (ch '"') then none
    else unquoteLoop rest.dropLast 0
  | [] => none

/-- A decoded JSON value. Strings are unquoted, object members are kept in
input order with duplicates, numbers keep their literal. -/
inductive Value
  | null
  | bool (b : Bool)
  | number (lit : Bytes)
  | string (s : Bytes)
  | array (elems : List Value)
  | object (members : List (Bytes × Value))

/-- The value of a literal, chosen by its first byte as in Go `literalStore`. -/
def literalValue (item : Bytes) : Option Value :=
  match item with
  | [] => none
  | c :: _ =>
    if c == ch 'n' then some .null
    else if c == ch 't' then some (.bool true)
    else if c == ch 'f' then some (.bool false)
    else if c == ch '"' then (unquoteBytes item).map .string
    else some (.number item)

/-- A composite under construction. -/
inductive Frame
  | array (elems : List Value)
  | object (members : List (Bytes × Value)) (key : Option Bytes)

/-- Go `decodeState` while it walks the data: the scanner, the literal being
read, the last complete value not yet stored in its parent, and the open
composites (innermost first). -/
structure decodeState where
  scan : scanner
  lit : Option Bytes
  val : Option Value
  stack : List Frame

/-- The start of a decode. -/
def decodeState.init : decodeState := ⟨scanner.reset, none, none, []⟩

/-- Completes the literal being read, if any. -/
def decodeState.flush (d : decodeState) : Option decodeState :=
  match d.lit with
  | none => some d
  | some item => (literalValue item).map fun v => { d with lit := none, val := some v }

/-- One byte of the walk: the scanner's return code says what the byte ends
or begins. `none` is a scanner error or a state the decoder would panic in. -/
def decodeState.feed (d : decodeState) (c : UInt8) : Option decodeState :=
  match d.scan.call c with
  | (_, .scanError) => none
  | (s, .scanContinue) => some { d with scan := s, lit := d.lit.map (· ++ [c]) }
  | (s, .scanBeginLiteral) => some { d with scan := s, lit := some [c] }
  | (s, op) =>
    match d.flush with
    | none => none
    | some d =>
      match op, d.val, d.stack with
      | .scanSkipSpace, _, _ => some { d with scan := s }
      | .scanEnd, _, _ => some { d with scan := s }
      | .scanBeginObject, _, st => some { d with scan := s, stack := .object [] none :: st }
      | .scanBeginArray, _, st => some { d with scan := s, stack := .array [] :: st }
      | .scanObjectKey, some (.string k), .object ms _ :: st =>
        some { d with scan := s, val := none, stack := .object ms (some k) :: st }
      | .scanObjectValue, some v, .object ms (some k) :: st =>
        some { d with scan := s, val := none, stack := .object (ms ++ [(k, v)]) none :: st }
      | .scanEndObject, some v, .object ms (some k) :: st =>
        some { d with scan := s, val := some (.object (ms ++ [(k, v)])), stack := st }
      | .scanEndObject, none, .object ms none :: st =>
        some { d with scan := s, val := some (.object ms), stack := st }
      | .scanArrayValue, some v, .array es :: st =>
        some { d with scan := s, val := none, stack := .array (es ++ [v]) :: st }
      | .scanEndArray, some v, .array es :: st =>
        some { d with scan := s, val := some (.array (es ++ [v])), stack := st }
      | .scanEndArray, none, .array es :: st =>
        some { d with scan := s, val := some (.array es), stack := st }
      | _, _, _ => none

/-- The walk over all the data. -/
def decodeState.feedAll : decodeState → Bytes → Option decodeState
  | d, [] => some d
  | d, c :: rest =>
    match d.feed c with
    | none => none
    | some d1 => d1.feedAll rest

/-- The JSON value the data holds, as the decoder reads it. -/
def decodeValue (data : Bytes) : Option Value :=
  match decodeState.init.feedAll data with
  | none => none
  | some d =>
    match d.flush with
    | some ⟨_, _, some v, []⟩ => some v
    | _ => none

/-- Go `simpleLetterEqualFold`: for a field name of letters other than k and
s. `s` is the field name, `t` the key. -/
def simpleLetterEqualFold : Bytes → Bytes → Bool
  | [], [] => true
  | b :: s, tb :: t => b &&& 223 == tb &&& 223 && simpleLetterEqualFold s t
  | _, _ => false

/-- Go `asciiEqualFold`: for a field name with a byte that is not a letter. -/
def asciiEqualFold : Bytes → Bytes → Bool
  | [], [] => true
  | sb :: s, tb :: t =>
    (sb == tb
      || (((ch 'a' ≤ sb && sb ≤ ch 'z') || (ch 'A' ≤ sb && sb ≤ ch 'Z'))
          && sb &&& 223 == tb &&& 223))
    && asciiEqualFold s t
  | _, _ => false

/-- Go `equalFoldRight`: for a field name with a k or an s, which the Kelvin
sign U+212A and the long s U+017F also match. The counter is the number of key
bytes still to pass over after a multi-byte rune. -/
def equalFoldRight : Bytes → Bytes → Bool
  | [], t => t.length == 0
  | _ :: _, [] => false
  | sb :: s, tb :: t =>
    if tb < 128 then
      (sb == tb || ((ch 'A' ≤ sb &&& 223 && sb &&& 223 ≤ ch 'Z') && sb &&& 223 == tb &&& 223))
      && equalFoldRight s t
    else
      let (tr, size) := utf8.DecodeRune (tb :: t)
      if sb == ch 's' || sb == ch 'S' then tr == 383 && equalFoldRight s (t.drop (size - 1))
      else if sb == ch 'k' || sb == ch 'K' then tr == 8490 && equalFoldRight s (t.drop (size - 1))
      else false

/-- The comparison Go `foldFunc` picks for a field name, applied to the name
and a key. The struct fields here have ASCII names; for a name with a byte
from 128 Go uses `bytes.EqualFold`, which is not needed. -/
def equalFold (name key : Bytes) : Bool :=
  let upper := name.map (· &&& 223)
  if upper.any fun b => b == ch 'K' || b == ch 'S' then equalFoldRight name key
  else if upper.any fun b => b < ch 'A' || b > ch 'Z' then asciiEqualFold name key
  else simpleLetterEqualFold name key

/-- The field look-up of Go `decodeState.object`: the index of the field whose
name equals the key, else of a field that matches under `equalFold`.
`found` is the fold match seen so far. -/
def findField (key : Bytes) : List Bytes → Nat → Option Nat → Option Nat
  | [], _, found => found
  | name :: fields, i, found =>
    if name == key then some i
    else if found.isNone && equalFold name key then findField key fields (i + 1) (some i)
    else findField key fields (i + 1) found

end json

/-! ## The types of `main.go` -/

/-- The anonymous struct type of field `Owner` in `webhookEvent`. -/
structure webhookOwner where
  Login : Bytes
deriving DecidableEq, Repr

/-- The anonymous struct type of field `Repository` in `webhookEvent`. -/
structure webhookRepository where
  Name : Bytes
  Owner : webhookOwner
deriving DecidableEq, Repr

/-- Type `webhookEvent` of `main.go`. -/
structure webhookEvent where
  Repository : webhookRepository
deriving DecidableEq, Repr

/-- The zero value `var evt webhookEvent`. -/
def webhookEvent.zero : webhookEvent := ⟨⟨[], ⟨[]⟩⟩⟩

namespace json

/-- Storing a JSON value in a Go `string`: a string is stored, `null` has no
effect, any other value is an `UnmarshalTypeError` (second component) and
leaves the target as it is. -/
def storeString (v : Value) (cur : Bytes) : Bytes × Bool :=
  match v with
  | .string s => (s, false)
  | .null => (cur, false)
  | _ => (cur, true)

/-- Storing a JSON value in the struct `Owner`: the members of an object are
stored in order in the fields they name, others are skipped. -/
def storeOwner (v : Value) (cur : webhookOwner) : webhookOwner × Bool :=
  match v with
  | .object ms =>
    ms.foldl (fun acc m =>
      match findField m.1 [ascii "Login"] 0 none with
      | some 0 => let r := storeString m.2 acc.1.Login; ({ acc.1 with Login := r.1 }, acc.2 || r.2)
      | _ => acc) (cur, false)
  | .null => (cur, false)
  | _ => (cur, true)

/-- Storing a JSON value in the struct `Repository`. -/
def storeRepository (v : Value) (cur : webhookRepository) :
    webhookRepository × Bool :=
  match v with
  | .object ms =>
    ms.foldl (fun acc m =>
      match findField m.1 [ascii "Name", ascii "Owner"] 0 none with
      | some 0 => let r := storeString m.2 acc.1.Name; ({ acc.1 with Name := r.1 }, acc.2 || r.2)
      | some 1 => let r := storeOwner m.2 acc.1.Owner; ({ acc.1 with Owner := r.1 }, acc.2 || r.2)
      | _ => acc) (cur, false)
  | .null => (cur, false)
  | _ => (cur, true)

/-- Storing a JSON value in a `webhookEvent`. -/
def storeEvent (v : Value) (cur : webhookEvent) : webhookEvent × Bool :=
  match v with
  | .object ms =>
    ms.foldl (fun acc m =>
      match findField m.1 [ascii "Repository"] 0 none with
      | some 0 =>
        let r := storeRepository m.2 acc.1.Repository
        ({ acc.1 with Repository := r.1 }, acc.2 || r.2)
      | _ => acc) (cur, false)
  | .null => (cur, false)
  | _ => (cur, true)

/-- The errors `json.Unmarshal` returns here. -/
inductive Error
  | SyntaxError
  | UnmarshalTypeError
deriving DecidableEq, Repr

/-- Go `json.Unmarshal(data, &evt)`: the event after the call and the error
returned. Invalid data is rejected before anything is stored; a type error is
returned after the rest of the data has been stored. The decoder reads a value
from all the data `checkValid` accepts (`decodeValue_of_checkValid` below), so
its failure case here is never taken. -/
def Unmarshal (data : Bytes) (evt : webhookEvent) : webhookEvent × Option Error :=
  if !checkValid data then (evt, some .SyntaxError)
  else
    match decodeValue data with
    | none => (evt, some .SyntaxError)
    | some v =>
      let r := storeEvent v evt
      (r.1, if r.2 then some .UnmarshalTypeError else none)

end json


/-! ## html/template -/

namespace template

/-- A node of a parsed template, for the templates made of text and field
actions such as `{{.Owner}}`. The text holds no `<`, so that the escaper of
`html/template` stays in its text context: it copies the text and escapes
every action with its HTML escaper. -/
inductive Node
  | text (t : Bytes)
  | field (name : Bytes)
deriving DecidableEq, Repr

/-- Go `*template.Template` after `Parse`, for the templates above. -/
abbrev Template := List Node

/-- Whether a byte may start a field name. -/
def isIdentStart (c : UInt8) : Bool :=
  c == ch '_' || (ch 'a' ≤ c && c ≤ ch 'z') || (ch 'A' ≤ c && c ≤ ch 'Z')

/-- Whether a byte may continue a field name. -/
def isIdentByte (c : UInt8) : Bool := isIdentStart c || (ch '0' ≤ c && c ≤ ch '9')

/-- The action at the start of the input, after its left delimiter: spaces, a
dot, a field name, spaces and the right delimiter. Gives the field name and
the number of bytes read. -/
def parseAction (s : Bytes) : Option (Bytes × Nat) :=
  let sp1 := s.takeWhile (· == ch ' ')
  match s.drop sp1.length with
  | dot :: c :: rest =>
    if dot == ch '.' && isIdentStart c then
      let name := c :: rest.takeWhile isIdentByte
      let after := rest.drop (name.length - 1)
      let sp2 := after.takeWhile (· == ch ' ')
      match after.drop sp2.length with
      | r1 :: r2 :: _ =>
        if r1 == ch '}' && r2 == ch '}' then some (name, sp1.length + 1 + name.length + sp2.length + 2)
        else none
      | _ => none
    else none
  | _ => none

/-- The text node for pending text, if there is any. -/
def textNode (cur : Bytes) : Template := if cur.isEmpty then [] else [.text cur]

/-- The parser for the templates above: `none` for a template with any other
construct. The counter is the number of bytes still to pass over because the
action starting earlier has read them; `cur` is the text since the last
action. -/
def parseLoop : Bytes → Nat → Bytes → Option Template
  | [], _, cur => some (textNode cur)
  | _ :: rest, k + 1, cur => parseLoop rest k cur
  | c :: rest, 0, cur =>
    if c == ch '{' && rest.head? == some (ch '{') then
      match parseAction rest.tail with
      | none => none
      | some (name, n) => (parseLoop rest (n + 1) []).map (textNode cur ++ .field name :: ·)
    else if c == ch '<' then none
    else parseLoop rest 0 (cur ++ [c])

/-- Go `template.New("channel").Parse(text)` for the templates above. -/
def Parse (text : Bytes) : Option Template := parseLoop text 0 []

/-- Go `htmlReplacementTable`: the replacement for a rune below 63, empty for
a rune that has none. -/
def htmlReplacementTable (r : Nat) : Bytes :=
  if r == 0 then [239, 191, 189]
  else if r == 34 then ascii "&#34;"
  else if r == 38 then ascii "&amp;"
  else if r == 39 then ascii "&#39;"
  else if r == 43 then ascii "&#43;"
  else if r == 60 then ascii "&lt;"
  else if r == 62 then ascii "&gt;"
  else []

/-- Go `htmlReplacer(s, htmlReplacementTable, true)`: rune by rune, a rune of
the table is replaced and every other rune is copied. The counter is the
number of bytes of a copied rune still to copy; a replaced rune is below 63
and so one byte wide. -/
def htmlReplacer : Bytes → Nat → Bytes
  | [], _ => []
  | c :: rest, k + 1 => c :: htmlReplacer rest k
  | c :: rest, 0 =>
    let (r, w) := utf8.DecodeRune (c :: rest)
    if r < 63 && (htmlReplacementTable r).length != 0 then
      htmlReplacementTable r ++ htmlReplacer rest 0
    else c :: htmlReplacer rest (w - 1)

/-- Go `htmlEscaper` on one plain string. -/
def htmlEscaper (s : Bytes) : Bytes := htmlReplacer s 0

end template

/-- Type `channelTmplVars` of `main.go`. -/
structure channelTmplVars where
  Owner : Bytes
  Repo : Bytes
  Event : Bytes
deriving DecidableEq, Repr

namespace template

/-- The field of the data a field action names; `none` when the struct has no
such field, which is an error of the execution. -/
def lookupField (data : channelTmplVars) (name : Bytes) : Option Bytes :=
  if name == ascii "Owner" then some data.Owner
  else if name == ascii "Repo" then some data.Repo
  else if name == ascii "Event" then some data.Event
  else none

/-- Go `Template.Execute(&b, data)`: the bytes written to the buffer and
whether an error is returned. The execution stops at the first error. -/
def Execute : Template → channelTmplVars → Bytes × Bool
  | [], _ => ([], false)
  | .text t :: rest, data =>
    let r := Execute rest data
    (t ++ r.1, r.2)
  | .field name :: rest, data =>
    match lookupField data name with
    | none => ([], true)
    | some s =>
      let r := Execute rest data
      (htmlEscaper s ++ r.1, r.2)

end template

/-! ## net/http -/

namespace http

/-- Go `http.Header`: the values of each header under its canonical key. -/
abbrev Header := List (Bytes × List Bytes)

/-- Go `validHeaderFieldByte`: the token characters of RFC 7230. -/
def validHeaderFieldByte (c : UInt8) : Bool :=
  (ch 'a' ≤ c && c ≤ ch 'z') || (ch 'A' ≤ c && c ≤ ch 'Z') || (ch '0' ≤ c && c ≤ ch '9')
    || (ascii "!#$%&*+-.^_|~").contains c || c == 39 || c == 96

/-- The canonicalising loop of Go `canonicalMIMEHeaderKey`: upper case for the
first letter and after each dash, lower case elsewhere. -/
def canonicalize : Bool → Bytes → Bytes
  | _, [] => []
  | upper, c :: rest =>
    let c1 :=
      if upper && ch 'a' ≤ c && c ≤ ch 'z' then c - 32
      else if !upper && ch 'A' ≤ c && c ≤ ch 'Z' then c + 32
      else c
    c1 :: canonicalize (c1 == ch '-') rest

/-- Go `textproto.CanonicalMIMEHeaderKey` on a key without spaces: a key with
a byte that is not a token character is returned unchanged. -/
def CanonicalMIMEHeaderKey (s : Bytes) : Bytes :=
  if s.all validHeaderFieldByte then canonicalize true s else s

/-- Go `Header.Get`: the first value under the canonical form of the key, the
empty string when there is none. -/
def Header.Get (h : Header) (key : Bytes) : Bytes :=
  match h.lookup (CanonicalMIMEHeaderKey key) with
  | some (v :: _) => v
  | _ => []

/-- Go `http.Request` as far as the handler reads it. `Body` is the result of
`ioutil.ReadAll(r.Body)`: the bytes read, or `none` for an error. -/
structure Request where
  Method : Bytes
  Header : Header
  Body : Option Bytes

end http

/-! ## The handler of `main` -/

/-- The variables of `main` the handler closes over. `Publish channel payload`
is whether `sc.Publish` returns an error for that call. -/
structure Config where
  githubSecret : Bytes
  channelTmpl : template.Template
  Publish : Bytes → Bytes → Bool

/-- What the handler does besides writing the response, in order. -/
inductive Effect
  | readBody
  | verifySignature
  | unmarshal
  | execute
  | publish (channel payload : Bytes)
deriving DecidableEq, Repr

/-- The outcome of one call of the handler: the status passed to
`w.WriteHeader`, if it is called, and the effects. -/
structure Result where
  wroteHeader : Option Nat
  effects : List Effect
deriving DecidableEq, Repr

/-- The status code of the response: `net/http` answers 200 when the handler
returns without a call of `WriteHeader`. -/
def Result.status (res : Result) : Nat := res.wroteHeader.getD 200

/-- The calls of `sc.Publish`, as pairs of channel and payload. -/
def Result.publishCalls (res : Result) : List (Bytes × Bytes) :=
  res.effects.filterMap fun e =>
    match e with
    | .publish c p => some (c, p)
    | _ => none

/-- Whether `json.Unmarshal` was called. -/
def Result.decoded (res : Result) : Bool := res.effects.contains .unmarshal

/-- The handler from the ping check on: lines 144 to 174 of `main.go`. `done`
holds the effects so far. -/
def route (cfg : Config) (r : http.Request) (body : Bytes) (done : List Effect) : Result :=
  let eventType := r.Header.Get (ascii "x-github-event")
  if eventType == ascii "ping" then ⟨none, done⟩
  else
    let evt := json.Unmarshal body webhookEvent.zero
    if evt.2.isSome then ⟨some 422, done ++ [.unmarshal]⟩
    else
      let b := template.Execute cfg.channelTmpl
        { Owner := evt.1.Repository.Owner.Login, Repo := evt.1.Repository.Name, Event := eventType }
      if b.2 then ⟨some 500, done ++ [.unmarshal, .execute]⟩
      else if cfg.Publish b.1 body then
        ⟨some 503, done ++ [.unmarshal, .execute, .publish b.1 body]⟩
      else ⟨none, done ++ [.unmarshal, .execute, .publish b.1 body]⟩

/-- The function passed to `http.HandleFunc("/", ...)` in `main`. -/
def handler (cfg : Config) (r : http.Request) : Result :=
  if r.Method != ascii "POST" then ⟨some 405, []⟩
  else
    match r.Body with
    | none => ⟨some 500, [.readBody]⟩
    | some body =>
      let sig := r.Header.Get (ascii "x-hub-signature")
      if cfg.githubSecret != [] then
        if sig == [] then ⟨some 401, [.readBody]⟩
        else if !verifyGithubSignature sig cfg.githubSecret body then
          ⟨some 401, [.readBody, .verifySignature]⟩
        else route cfg r body [.readBody, .verifySignature]
      else if sig != [] then ⟨some 401, [.readBody]⟩
      else route cfg r body [.readBody]


/-- Whether a header is on the request: whether `Header` has an entry under
the canonical form of the key. -/
def http.Header.present (h : http.Header) (key : Bytes) : Bool :=
  (h.lookup (http.CanonicalMIMEHeaderKey key)).isSome

/-- The signature policy in the words of the specification: with a secret
configured a signature must be there and verify; without one no signature may
be there. `sig` is the value `r.Header.Get("x-hub-signature")`. -/
def passesAuth (githubSecret sig body : Bytes) : Bool :=
  if githubSecret != [] then sig != [] && verifyGithubSignature sig githubSecret body
  else sig == []

/-- Whether a JSON value is `null`. -/
def json.Value.isNull : json.Value → Bool
  | .null => true
  | _ => false

/-- Whether a JSON value is an object. -/
def json.Value.isObject : json.Value → Bool
  | .object _ => true
  | _ => false

/-- The channel template `{{.Owner}}.{{.Repo}}.{{.Event}}` after `Parse`. -/
def ownerRepoEventTmpl : template.Template :=
  [.field (ascii "Owner"), .text (ascii "."), .field (ascii "Repo"), .text (ascii "."),
    .field (ascii "Event")]

/-- The default channel template `github.events` after `Parse`. -/
def defaultTmpl : template.Template := [.text (ascii "github.events")]

/-- A configuration without a secret whose publish calls succeed. -/
def openConfig (tmpl : template.Template) : Config := ⟨[], tmpl, fun _ _ => false⟩

/-- A configuration with the secret `s` whose publish calls succeed. -/
def secretConfig : Config := ⟨ascii "s", defaultTmpl, fun _ _ => false⟩

/-- A POST request with an event type and a body and no signature header. -/
def postRequest (event body : Bytes) : http.Request :=
  ⟨ascii "POST", [(ascii "X-Github-Event", [event])], some body⟩

/-- A POST request with an event type, a signature header and a body. -/
def signedRequest (event sig body : Bytes) : http.Request :=
  ⟨ascii "POST", [(ascii "X-Github-Event", [event]), (ascii "X-Hub-Signature", [sig])], some body⟩

/-- A configuration without a secret whose publish calls fail. -/
def failingConfig : Config := ⟨[], defaultTmpl, fun _ _ => true⟩

/-- The body of the specification's example, with owner `o` and repository
`r`. -/
def exampleBody : Bytes :=
  ascii "\x7b\"repository\":\x7b\"name\":\"r\",\"owner\":\x7b\"login\":\"o\"\x7d\x7d\x7d"

/-- A body of the same shape with owner `o` and repository `R&D`. -/
def ampersandBody : Bytes :=
  ascii "\x7b\"repository\":\x7b\"name\":\"R&D\",\"owner\":\x7b\"login\":\"o\"\x7d\x7d\x7d"

/-- The signature of the body `[]` under the secret `s`. -/
def exampleSignature : Bytes := ascii "sha1=ab78f5967f827d5d0ee186db1e66d2e24047eb44"


namespace json

/-! ## The scanner inside a string literal -/

/-- The scanner's transition inside a string literal, as a function of its
state alone: `none` when the byte ends the literal or is an error. -/
def strStep : Step → UInt8 → Option Step
  | .stateInString, c =>
    if c == ch '"' then none
    else if c == ch '\\' then some .stateInStringEsc
    else if c < 32 then none
    else some .stateInString
  | .stateInStringEsc, c =>
    if c == ch 'b' || c == ch 'f' || c == ch 'n' || c == ch 'r' || c == ch 't' || c == ch '\\'
        || c == ch '/' || c == ch '"' then some .stateInString
    else if c == ch 'u' then some .stateInStringEscU
    else none
  | .stateInStringEscU, c => if isHex c then some .stateInStringEscU1 else none
  | .stateInStringEscU1, c => if isHex c then some .stateInStringEscU12 else none
  | .stateInStringEscU12, c => if isHex c then some .stateInStringEscU123 else none
  | .stateInStringEscU123, c => if isHex c then some .stateInString else none
  | _, _ => none

/-- The state the scanner is in after the bytes of an unfinished string
literal. -/
def strRun : Step → Bytes → Option Step
  | st, [] => some st
  | st, c :: rest =>
    match strStep st c with
    | none => none
    | some st1 => strRun st1 rest

/-! ## The invariant of the decoder's walk -/

/-- The open composites below the innermost one: each waits for the value
being read, so an object has its key. -/
def innerOK : List ParseState → List Frame → Prop
  | [], [] => True
  | .parseArrayValue :: ps, .array _ :: fs => innerOK ps fs
  | .parseObjectValue :: ps, .object _ (some _) :: fs => innerOK ps fs
  | _, _ => False

/-- The scanner's stack and the decoder's stack agree; only the innermost
object may be waiting for a key. -/
def stackOK : List ParseState → List Frame → Prop
  | .parseObjectKey :: ps, .object _ none :: fs => innerOK ps fs
  | .parseObjectKey :: _, _ => False
  | ps, fs => innerOK ps fs

/-- Whether the scanner is where an object key is read. -/
def keyPos (s : scanner) : Prop := s.parseState.head? = some .parseObjectKey

/-- A complete value is pending: a literal that has a value, or a value
already built; where a key is read it is a string. -/
def pendingOK (key : Prop) (lit : Option Bytes) (val : Option Value) : Prop :=
  match lit, val with
  | some item, none => (literalValue item).isSome = true ∧ (key → item.head? = some (ch '"'))
  | none, some v => key → ∃ k, v = .string k
  | _, _ => False

/-- Whether the scanner is inside a literal that is not a string. -/
def isLiteralStep : Step → Bool
  | .stateNeg | .state1 | .state0 | .stateDot | .stateDot0 | .stateE | .stateESign | .stateE0
  | .stateT | .stateTr | .stateTru | .stateF | .stateFa | .stateFal | .stateFals
  | .stateN | .stateNu | .stateNul => true
  | _ => false

/-- What the decoder holds in each state of the scanner. -/
def phaseOK (s : scanner) (lit : Option Bytes) (val : Option Value) : Prop :=
  match s.step with
  | .stateBeginValue => lit = none ∧ val = none ∧ ¬ keyPos s
  | .stateBeginValueOrEmpty =>
    lit = none ∧ val = none ∧ s.parseState.head? = some .parseArrayValue
  | .stateBeginString => lit = none ∧ val = none ∧ keyPos s
  | .stateBeginStringOrEmpty => lit = none ∧ val = none ∧ keyPos s
  | .stateEndValue => pendingOK (keyPos s) lit val
  | .stateEndTop => s.parseState = [] ∧ pendingOK False lit val
  | .stateError => s.err = true
  | .stateInString | .stateInStringEsc | .stateInStringEscU | .stateInStringEscU1
  | .stateInStringEscU12 | .stateInStringEscU123 =>
    val = none ∧ ∃ content, lit = some (ch '"' :: content)
      ∧ strRun .stateInString content = some s.step
  | _ => val = none ∧ ¬ keyPos s ∧ ∃ c rest, lit = some (c :: rest) ∧ c ≠ ch '"'

/-- The invariant of the decoder's walk over the data. -/
def decodeState.Inv (d : decodeState) : Prop :=
  stackOK d.scan.parseState d.stack ∧ phaseOK d.scan d.lit d.val
    ∧ (d.scan.endTop = true → d.scan.step = .stateEndTop ∨ d.scan.step = .stateError)

end json


/-! ## Byte operations -/

theorem u8_toNat_xor (a b : UInt8) : (a ^^^ b).toNat = a.toNat ^^^ b.toNat :=
  BitVec.toNat_xor a.toBitVec b.toBitVec

theorem u8_toNat_or (a b : UInt8) : (a ||| b).toNat = a.toNat ||| b.toNat :=
  BitVec.toNat_or a.toBitVec b.toBitVec

theorem u8_xor_eq_zero (a b : UInt8) : a ^^^ b = 0 ↔ a = b := by
  constructor
  · intro h
    apply UInt8.toNat.inj
    have h2 := congrArg UInt8.toNat h
    rw [u8_toNat_xor] at h2
    exact Nat.xor_eq_zero.mp h2
  · rintro rfl
    apply UInt8.toNat.inj
    rw [u8_toNat_xor]
    exact Nat.xor_self _

theorem nat_or_eq_zero (m n : Nat) (h : m ||| n = 0) : m = 0 ∧ n = 0 := by
  constructor
  · apply Nat.eq_of_testBit_eq
    intro i
    have hi := congrArg (fun k => Nat.testBit k i) h
    simp only [Nat.testBit_or, Nat.zero_testBit, Bool.or_eq_false_iff] at hi
    simpa using hi.1
  · apply Nat.eq_of_testBit_eq
    intro i
    have hi := congrArg (fun k => Nat.testBit k i) h
    simp only [Nat.testBit_or, Nat.zero_testBit, Bool.or_eq_false_iff] at hi
    simpa using hi.2

theorem u8_or_eq_zero (a b : UInt8) : a ||| b = 0 ↔ a = 0 ∧ b = 0 := by
  constructor
  · intro h
    have h2 := congrArg UInt8.toNat h
    rw [u8_toNat_or] at h2
    have h3 := nat_or_eq_zero _ _ h2
    exact ⟨UInt8.toNat.inj h3.1, UInt8.toNat.inj h3.2⟩
  · rintro ⟨rfl, rfl⟩
    rfl

/-! ## The signature check -/

theorem xorAccumulate_eq_zero (v : UInt8) (xs ys : Bytes) (h : xs.length = ys.length) :
    xorAccumulate v xs ys = 0 ↔ v = 0 ∧ xs = ys := by
  induction xs generalizing v ys with
  | nil =>
    cases ys with
    | nil => simp [xorAccumulate]
    | cons y ys => simp at h
  | cons x xs ih =>
    cases ys with
    | nil => simp at h
    | cons y ys =>
      simp only [List.length_cons, Nat.add_right_cancel_iff] at h
      simp only [xorAccumulate, ih _ _ h, u8_or_eq_zero, u8_xor_eq_zero, List.cons.injEq]
      tauto

theorem ConstantTimeByteEq_zero (v : UInt8) : ConstantTimeByteEq v 0 = 1 ↔ v = 0 := by
  have hv : v.toNat < 256 := UInt8.toNat_lt_size v
  have hx : (v ^^^ 0).toNat = v.toNat := by rw [u8_toNat_xor]; simp
  unfold ConstantTimeByteEq
  rw [hx]
  constructor
  · intro h
    apply UInt8.toNat.inj
    by_contra hne
    have h0 : 0 < v.toNat := Nat.pos_of_ne_zero hne
    have e : (v.toNat + 4294967296 - 1) % 4294967296 = v.toNat - 1 := by omega
    rw [e, Nat.shiftRight_eq_div_pow] at h
    have : (v.toNat - 1) / 2 ^ 31 = 0 := Nat.div_eq_of_lt (by omega)
    omega
  · rintro rfl
    decide

theorem ConstantTimeCompare_eq_one (x y : Bytes) : ConstantTimeCompare x y = 1 ↔ x = y := by
  unfold ConstantTimeCompare
  by_cases h : x.length = y.length
  · simp only [bne_iff_ne, ne_eq, h, not_true_eq_false, ↓reduceIte, ConstantTimeByteEq_zero,
      xorAccumulate_eq_zero 0 x y h, true_and]
  · simp only [bne_iff_ne, ne_eq, h, not_false_eq_true, ↓reduceIte]
    constructor
    · intro h0; omega
    · rintro rfl; exact absurd rfl h

theorem hmac_Equal_iff (x y : Bytes) : hmac.Equal x y = true ↔ x = y := by
  unfold hmac.Equal
  rw [beq_iff_eq, ConstantTimeCompare_eq_one]

theorem verify_iff (sig secret b : Bytes) :
    verifyGithubSignature sig secret b = true ↔ sig = formatSignature (hmac.sumSHA1 secret b) := by
  unfold verifyGithubSignature
  simp only [hmac_Equal_iff]
  exact eq_comm

theorem verify_formatted (secret b : Bytes) :
    verifyGithubSignature (formatSignature (hmac.sumSHA1 secret b)) secret b = true :=
  (verify_iff _ _ _).mpr rfl

theorem verify_false_of_ne (sig secret b : Bytes)
    (h : sig ≠ formatSignature (hmac.sumSHA1 secret b)) :
    verifyGithubSignature sig secret b = false := by
  cases hv : verifyGithubSignature sig secret b with
  | false => rfl
  | true => exact absurd ((verify_iff _ _ _).mp hv) h

theorem verify_nil (secret b : Bytes) : verifyGithubSignature [] secret b = false := by
  apply verify_false_of_ne
  intro h
  have := congrArg List.length h
  simp [formatSignature, ascii] at this

theorem hexEncode_length (bs : Bytes) : (hexEncode bs).length = 2 * bs.length := by
  induction bs with
  | nil => rfl
  | cons b bs ih => simp only [hexEncode, List.length_cons, ih]; omega

theorem sha1_sum_length (msg : Bytes) : (sha1.sum msg).length = 20 := by
  simp [sha1.sum, sha1.wordBytes]

theorem formatSignature_length (secret b : Bytes) :
    (formatSignature (hmac.sumSHA1 secret b)).length = 45 := by
  have h : (hmac.sumSHA1 secret b).length = 20 := by
    unfold hmac.sumSHA1
    exact sha1_sum_length _
  simp [formatSignature, ascii, hexEncode_length, h]

/-- C1: `verifyGithubSignature` returns true exactly on the string `sha1=`
followed by the lowercase hexadecimal digits of the HMAC-SHA1 of the body
under the secret. That string has 45 bytes; it is accepted, every other
string is rejected, and so is every string of another length. -/
theorem verifyGithubSignature_spec (sig secret b : Bytes) :
    (verifyGithubSignature sig secret b = true ↔
        sig = ascii "sha1=" ++ hexEncode (hmac.sumSHA1 secret b))
      ∧ verifyGithubSignature (ascii "sha1=" ++ hexEncode (hmac.sumSHA1 secret b)) secret b = true
      ∧ (sig ≠ ascii "sha1=" ++ hexEncode (hmac.sumSHA1 secret b) →
          verifyGithubSignature sig secret b = false)
      ∧ (ascii "sha1=" ++ hexEncode (hmac.sumSHA1 secret b)).length = 45
      ∧ (sig.length ≠ 45 → verifyGithubSignature sig secret b = false) := by
  refine ⟨verify_iff sig secret b, verify_formatted secret b, verify_false_of_ne sig secret b,
    formatSignature_length secret b, ?_⟩
  intro hlen
  apply verify_false_of_ne
  intro h
  apply hlen
  rw [h]
  exact formatSignature_length secret b

set_option maxRecDepth 1000000 in
/-- An instance of C1: the signature of the body `[]` under the secret `s` is
accepted, a signature with another last digit and a truncated one are not. -/
theorem verifyGithubSignature_spec_witness :
    verifyGithubSignature (ascii "sha1=ab78f5967f827d5d0ee186db1e66d2e24047eb44") (ascii "s")
        (ascii "[]") = true
      ∧ verifyGithubSignature (ascii "sha1=ab78f5967f827d5d0ee186db1e66d2e24047eb45") (ascii "s")
        (ascii "[]") = false
      ∧ verifyGithubSignature (ascii "sha1=ab78") (ascii "s") (ascii "[]") = false :=
  ⟨(verifyGithubSignature_spec _ (ascii "s") (ascii "[]")).1.mpr (by decide),
    (verifyGithubSignature_spec _ (ascii "s") (ascii "[]")).2.2.1 (by decide),
    (verifyGithubSignature_spec _ (ascii "s") (ascii "[]")).2.2.2.2 (by decide)⟩


/-! ## The decoder accepts what the scanner accepts -/

theorem u8_lt_iff (a b : UInt8) : a < b ↔ a.toNat < b.toNat := Iff.rfl

theorem u8_le_iff (a b : UInt8) : a ≤ b ↔ a.toNat ≤ b.toNat := Iff.rfl

theorem unquoteLoop_skip (xs : Bytes) (k : Nat) :
    json.unquoteLoop xs k = json.unquoteLoop (xs.drop k) 0 := by
  induction xs generalizing k with
  | nil => cases k <;> simp [json.unquoteLoop]
  | cons c rest ih =>
    cases k with
    | zero => rfl
    | succ k => simp only [json.unquoteLoop, List.drop_succ_cons]; exact ih k

theorem hexVal_isSome (c : UInt8) : (json.hexVal c).isSome = json.isHex c := by
  unfold json.hexVal json.isHex
  split_ifs <;> simp_all

theorem strRun_append (st : json.Step) (xs ys : Bytes) :
    json.strRun st (xs ++ ys) = (json.strRun st xs).bind fun st1 => json.strRun st1 ys := by
  induction xs generalizing st with
  | nil => rfl
  | cons c rest ih =>
    simp only [List.cons_append, json.strRun]
    cases json.strStep st c with
    | none => rfl
    | some st1 => exact ih st1

theorem strStep_high (c : UInt8) (h : 128 ≤ c) :
    json.strStep .stateInString c = some .stateInString := by
  rw [u8_le_iff] at h
  have h128 : (128 : UInt8).toNat = 128 := rfl
  rw [h128] at h
  have h1 : (c == ch '"') = false := by
    apply beq_false_of_ne
    rintro rfl
    revert h; decide
  have h2 : (c == ch '\\') = false := by
    apply beq_false_of_ne
    rintro rfl
    revert h; decide
  have h3 : ¬ c < 32 := by
    rw [u8_lt_iff]
    have h32 : (32 : UInt8).toNat = 32 := rfl
    omega
  simp [json.strStep, h1, h2, h3]

theorem strRun_high (xs ys : Bytes) (h : ∀ b ∈ xs, (128 : UInt8) ≤ b) :
    json.strRun .stateInString (xs ++ ys) = json.strRun .stateInString ys := by
  induction xs with
  | nil => rfl
  | cons c rest ih =>
    simp only [List.cons_append, json.strRun, strStep_high c (h c (List.mem_cons_self _ _))]
    exact ih fun b hb => h b (List.mem_cons_of_mem _ hb)

theorem isCont_high (b : UInt8) (h : utf8.isCont b = true) : (128 : UInt8) ≤ b := by
  simp only [utf8.isCont, Bool.and_eq_true, decide_eq_true_eq] at h
  exact h.1

theorem DecodeRune_take_high (c : UInt8) (rest : Bytes) :
    ∀ b ∈ rest.take ((utf8.DecodeRune (c :: rest)).2 - 1), (128 : UInt8) ≤ b := by
  have e128 : (128 : UInt8).toNat = 128 := rfl
  have e160 : (160 : UInt8).toNat = 160 := rfl
  have e144 : (144 : UInt8).toNat = 144 := rfl
  rcases rest with _ | ⟨b1, _ | ⟨b2, _ | ⟨b3, r3⟩⟩⟩ <;> simp only [utf8.DecodeRune] <;>
    split_ifs <;>
    simp_all only [utf8.isCont, Bool.and_eq_true, decide_eq_true_eq, List.take_nil,
      List.not_mem_nil, false_implies, implies_true, Nat.sub_self, List.take_zero,
      Nat.add_one_sub_one, List.take_succ_cons, List.mem_cons, List.mem_singleton,
      forall_eq_or_imp, forall_eq, and_self, and_true, true_and, Nat.reduceSub,
      List.take_succ_cons, List.take_zero, or_false] <;>
    simp only [u8_le_iff, e128, e160, e144] at * <;>
    omega

theorem strRun_drop_rune (c : UInt8) (rest : Bytes)
    (h : json.strRun .stateInString rest = some .stateInString) :
    json.strRun .stateInString (rest.drop ((utf8.DecodeRune (c :: rest)).2 - 1))
      = some .stateInString := by
  have h1 := strRun_high (rest.take ((utf8.DecodeRune (c :: rest)).2 - 1))
    (rest.drop ((utf8.DecodeRune (c :: rest)).2 - 1)) (DecodeRune_take_high c rest)
  rw [List.take_append_drop] at h1
  rw [← h1]
  exact h

theorem isHex_of_hexVal (c : UInt8) (n : Nat) (h : json.hexVal c = some n) :
    json.isHex c = true := by
  rw [← hexVal_isSome, h]; rfl

theorem getu4_shape (s : Bytes) (rr : Nat) (h : json.getu4 s = some rr) :
    ∃ h1 h2 h3 h4 rest, s = ch '\\' :: ch 'u' :: h1 :: h2 :: h3 :: h4 :: rest
      ∧ json.isHex h1 = true ∧ json.isHex h2 = true ∧ json.isHex h3 = true
      ∧ json.isHex h4 = true := by
  rcases s with _ | ⟨b0, _ | ⟨b1, _ | ⟨h1, _ | ⟨h2, _ | ⟨h3, _ | ⟨h4, rest⟩⟩⟩⟩⟩⟩ <;>
    simp only [json.getu4] at h <;> try cases h
  split_ifs at h with hb
  simp only [Bool.or_eq_true, bne_iff_ne, ne_eq, not_or, not_not] at hb
  cases e1 : json.hexVal h1 <;> cases e2 : json.hexVal h2 <;> cases e3 : json.hexVal h3 <;>
    cases e4 : json.hexVal h4 <;> simp only [e1, e2, e3, e4] at h <;> try cases h
  exact ⟨h1, h2, h3, h4, rest, by rw [hb.1, hb.2], isHex_of_hexVal _ _ e1,
    isHex_of_hexVal _ _ e2, isHex_of_hexVal _ _ e3, isHex_of_hexVal _ _ e4⟩

theorem getu4_of_hex (h1 h2 h3 h4 : UInt8) (rest : Bytes)
    (e1 : json.isHex h1 = true) (e2 : json.isHex h2 = true) (e3 : json.isHex h3 = true)
    (e4 : json.isHex h4 = true) :
    ∃ rr, json.getu4 (ch '\\' :: ch 'u' :: h1 :: h2 :: h3 :: h4 :: rest) = some rr := by
  rw [← hexVal_isSome, Option.isSome_iff_exists] at e1 e2 e3 e4
  obtain ⟨a, ha⟩ := e1
  obtain ⟨b, hb⟩ := e2
  obtain ⟨c, hc⟩ := e3
  obtain ⟨d, hd⟩ := e4
  exact ⟨((a * 16 + b) * 16 + c) * 16 + d, by simp [json.getu4, ha, hb, hc, hd]⟩

theorem strRun_cons (st st1 : json.Step) (c : UInt8) (rest : Bytes)
    (h : json.strStep st c = some st1) : json.strRun st (c :: rest) = json.strRun st1 rest := by
  simp only [json.strRun, h]

theorem strRun_escU (h1 h2 h3 h4 : UInt8) (rest : Bytes)
    (e1 : json.isHex h1 = true) (e2 : json.isHex h2 = true) (e3 : json.isHex h3 = true)
    (e4 : json.isHex h4 = true) :
    json.strRun .stateInString (ch '\\' :: ch 'u' :: h1 :: h2 :: h3 :: h4 :: rest)
      = json.strRun .stateInString rest := by
  rw [strRun_cons .stateInString .stateInStringEsc _ _ (by decide),
    strRun_cons .stateInStringEsc .stateInStringEscU _ _ (by decide),
    strRun_cons .stateInStringEscU .stateInStringEscU1 _ _ (by simp [json.strStep, e1]),
    strRun_cons .stateInStringEscU1 .stateInStringEscU12 _ _ (by simp [json.strStep, e2]),
    strRun_cons .stateInStringEscU12 .stateInStringEscU123 _ _ (by simp [json.strStep, e3]),
    strRun_cons .stateInStringEscU123 .stateInString _ _ (by simp [json.strStep, e4])]


theorem strRun_cons_some (st r : json.Step) (c : UInt8) (rest : Bytes)
    (h : json.strRun st (c :: rest) = some r) :
    ∃ st1, json.strStep st c = some st1 ∧ json.strRun st1 rest = some r := by
  rw [json.strRun] at h
  cases hs : json.strStep st c with
  | none => rw [hs] at h; cases h
  | some st1 => rw [hs] at h; exact ⟨st1, rfl, h⟩

theorem strRun_nil_some (st r : json.Step) (h : json.strRun st [] = some r) : st = r := by
  rw [json.strRun] at h
  exact Option.some.inj h

theorem strStep_inString (c : UInt8) (st : json.Step)
    (h : json.strStep .stateInString c = some st) :
    (c = ch '\\' ∧ st = .stateInStringEsc)
      ∨ ((c == ch '\\') = false ∧ (c == ch '"') = false ∧ ¬ c < 32 ∧ st = .stateInString) := by
  simp only [json.strStep] at h
  split_ifs at h with hq hb hc
  · left
    exact ⟨by simpa using hb, (Option.some.inj h).symm⟩
  · right
    exact ⟨by simpa using hb, by simpa using hq, hc, (Option.some.inj h).symm⟩

theorem strStep_esc (e : UInt8) (st : json.Step)
    (h : json.strStep .stateInStringEsc e = some st) :
    ((e == ch 'b' || e == ch 'f' || e == ch 'n' || e == ch 'r' || e == ch 't'
          || e == ch '\\' || e == ch '/' || e == ch '"') = true ∧ st = .stateInString)
      ∨ (e = ch 'u' ∧ st = .stateInStringEscU) := by
  simp only [json.strStep] at h
  split_ifs at h with hs hu
  · left
    exact ⟨hs, (Option.some.inj h).symm⟩
  · right
    exact ⟨by simpa using hu, (Option.some.inj h).symm⟩

theorem strRun_hex4 (rest : Bytes) (r : json.Step)
    (h : json.strRun .stateInStringEscU rest = some r) (hr : r = .stateInString) :
    ∃ h1 h2 h3 h4 rest3, rest = h1 :: h2 :: h3 :: h4 :: rest3
      ∧ json.isHex h1 = true ∧ json.isHex h2 = true ∧ json.isHex h3 = true
      ∧ json.isHex h4 = true ∧ json.strRun .stateInString rest3 = some .stateInString := by
  subst hr
  rcases rest with _ | ⟨h1, rest⟩
  · cases strRun_nil_some _ _ h
  obtain ⟨s1, hs1, h⟩ := strRun_cons_some _ _ _ _ h
  simp only [json.strStep] at hs1
  split_ifs at hs1 with e1
  cases hs1
  rcases rest with _ | ⟨h2, rest⟩
  · cases strRun_nil_some _ _ h
  obtain ⟨s2, hs2, h⟩ := strRun_cons_some _ _ _ _ h
  simp only [json.strStep] at hs2
  split_ifs at hs2 with e2
  cases hs2
  rcases rest with _ | ⟨h3, rest⟩
  · cases strRun_nil_some _ _ h
  obtain ⟨s3, hs3, h⟩ := strRun_cons_some _ _ _ _ h
  simp only [json.strStep] at hs3
  split_ifs at hs3 with e3
  cases hs3
  rcases rest with _ | ⟨h4, rest⟩
  · cases strRun_nil_some _ _ h
  obtain ⟨s4, hs4, h⟩ := strRun_cons_some _ _ _ _ h
  simp only [json.strStep] at hs4
  split_ifs at hs4 with e4
  cases hs4
  exact ⟨h1, h2, h3, h4, rest, rfl, e1, e2, e3, e4, h⟩

/-- The shapes of the start of a string the scanner is inside of: a plain
byte, an escape of one byte, or an escape of four hexadecimal digits. -/
theorem strRun_shape (c : UInt8) (rest : Bytes)
    (h : json.strRun .stateInString (c :: rest) = some .stateInString) :
    ((c == ch '\\') = false ∧ (c == ch '"') = false ∧ ¬ c < 32
        ∧ json.strRun .stateInString rest = some .stateInString)
      ∨ (c = ch '\\' ∧ ∃ e rest2, rest = e :: rest2
          ∧ (e == ch 'b' || e == ch 'f' || e == ch 'n' || e == ch 'r' || e == ch 't'
              || e == ch '\\' || e == ch '/' || e == ch '"') = true
          ∧ json.strRun .stateInString rest2 = some .stateInString)
      ∨ (c = ch '\\' ∧ ∃ h1 h2 h3 h4 rest3, rest = ch 'u' :: h1 :: h2 :: h3 :: h4 :: rest3
          ∧ json.isHex h1 = true ∧ json.isHex h2 = true ∧ json.isHex h3 = true
          ∧ json.isHex h4 = true
          ∧ json.strRun .stateInString rest3 = some .stateInString) := by
  obtain ⟨st1, hs1, h⟩ := strRun_cons_some _ _ _ _ h
  rcases strStep_inString c st1 hs1 with ⟨hb, rfl⟩ | ⟨hb, hq, hc, rfl⟩
  · right
    rcases rest with _ | ⟨e, rest2⟩
    · cases strRun_nil_some _ _ h
    obtain ⟨st2, hs2, h⟩ := strRun_cons_some _ _ _ _ h
    rcases strStep_esc e st2 hs2 with ⟨hs, rfl⟩ | ⟨hu, rfl⟩
    · left
      exact ⟨hb, e, rest2, rfl, hs, h⟩
    · right
      obtain ⟨h1, h2, h3, h4, rest3, rfl, e1, e2, e3, e4, h⟩ := strRun_hex4 rest2 _ h rfl
      exact ⟨hb, h1, h2, h3, h4, rest3, by rw [hu], e1, e2, e3, e4, h⟩
  · left
    exact ⟨hb, hq, hc, h⟩

theorem unquote_simple (e : UInt8) (rest2 : Bytes)
    (hs : (e == ch 'b' || e == ch 'f' || e == ch 'n' || e == ch 'r' || e == ch 't'
              || e == ch '\\' || e == ch '/' || e == ch '"') = true) :
    ∃ b : UInt8, json.unquoteLoop (ch '\\' :: e :: rest2) 0
      = (json.unquoteLoop rest2 0).map (b :: ·) := by
  simp only [Bool.or_eq_true, beq_iff_eq] at hs
  rcases hs with ((((((rfl | rfl) | rfl) | rfl) | rfl) | rfl) | rfl) | rfl
  · exact ⟨8, rfl⟩
  · exact ⟨12, rfl⟩
  · exact ⟨10, rfl⟩
  · exact ⟨13, rfl⟩
  · exact ⟨9, rfl⟩
  · exact ⟨ch '\\', rfl⟩
  · exact ⟨ch '/', rfl⟩
  · exact ⟨ch '"', rfl⟩

theorem unquote_escU (h1 h2 h3 h4 : UInt8) (rest3 : Bytes) :
    json.unquoteLoop (ch '\\' :: ch 'u' :: h1 :: h2 :: h3 :: h4 :: rest3) 0
      = match json.getu4 (ch '\\' :: ch 'u' :: h1 :: h2 :: h3 :: h4 :: rest3) with
        | none => none
        | some rr =>
          if utf16.IsSurrogate rr then
            if utf16.DecodeRune rr (json.getu4 rest3) != 65533 then
              (json.unquoteLoop (rest3.drop 6) 0).map
                (utf8.EncodeRune (utf16.DecodeRune rr (json.getu4 rest3)) ++ ·)
            else (json.unquoteLoop rest3 0).map (utf8.EncodeRune 65533 ++ ·)
          else (json.unquoteLoop rest3 0).map (utf8.EncodeRune rr ++ ·) := by
  have h5 : json.unquoteLoop (ch 'u' :: h1 :: h2 :: h3 :: h4 :: rest3) 5
      = json.unquoteLoop rest3 0 := by
    rw [unquoteLoop_skip]; rfl
  have h11 : json.unquoteLoop (ch 'u' :: h1 :: h2 :: h3 :: h4 :: rest3) 11
      = json.unquoteLoop (rest3.drop 6) 0 := by
    rw [unquoteLoop_skip]; rfl
  rw [← h5, ← h11]
  rfl

theorem unquote_plain (c : UInt8) (rest : Bytes)
    (hb : (c == ch '\\') = false) (hq : (c == ch '"') = false) (hc : ¬ c < 32) :
    json.unquoteLoop (c :: rest) 0
      = if c < 128 then (json.unquoteLoop rest 0).map (c :: ·)
        else (json.unquoteLoop (rest.drop ((utf8.DecodeRune (c :: rest)).2 - 1)) 0).map
          (utf8.EncodeRune (utf8.DecodeRune (c :: rest)).1 ++ ·) := by
  rw [← unquoteLoop_skip, json.unquoteLoop.eq_def]
  simp only [hb, hq, hc, Bool.false_eq_true, ↓reduceIte, Bool.false_or, decide_False]

theorem unquoteLoop_isSome (n : Nat) : ∀ content : Bytes, content.length ≤ n →
    json.strRun .stateInString content = some .stateInString →
    (json.unquoteLoop content 0).isSome = true := by
  induction n with
  | zero =>
    intro content hl _
    have : content = [] := List.length_eq_zero.mp (Nat.le_zero.mp hl)
    subst this
    rfl
  | succ n ih =>
    intro content hl h
    rcases content with _ | ⟨c, rest⟩
    · rfl
    · simp only [List.length_cons, Nat.add_le_add_iff_right] at hl
      rcases strRun_shape c rest h with ⟨hb, hq, hc, hr⟩ | ⟨hb, e, rest2, rfl, hs, hr⟩
        | ⟨hb, h1, h2, h3, h4, rest3, rfl, e1, e2, e3, e4, hr⟩
      · rw [unquote_plain c rest hb hq hc]
        split_ifs
        · rw [Option.isSome_map']
          exact ih rest hl hr
        · rw [Option.isSome_map']
          apply ih
          · rw [List.length_drop]; omega
          · exact strRun_drop_rune c rest hr
      · subst hb
        have hl2 : rest2.length ≤ n := by simp only [List.length_cons] at hl; omega
        obtain ⟨b, hb⟩ := unquote_simple e rest2 hs
        rw [hb, Option.isSome_map']
        exact ih rest2 hl2 hr
      · subst hb
        obtain ⟨rr, hrr⟩ := getu4_of_hex h1 h2 h3 h4 rest3 e1 e2 e3 e4
        have hl3 : rest3.length ≤ n := by simp only [List.length_cons] at hl; omega
        rw [unquote_escU, hrr]
        simp only
        split_ifs with hsur hdec
        · rw [Option.isSome_map']
          apply ih
          · rw [List.length_drop]; omega
          · cases hg : json.getu4 rest3 with
            | none => simp [hg, utf16.DecodeRune] at hdec
            | some r2 =>
              obtain ⟨l1, l2, l3, l4, rest4, rfl, f1, f2, f3, f4⟩ := getu4_shape rest3 r2 hg
              rw [strRun_escU l1 l2 l3 l4 rest4 f1 f2 f3 f4] at hr
              exact hr
        · rw [Option.isSome_map']
          exact ih rest3 hl3 hr
        · rw [Option.isSome_map']
          exact ih rest3 hl3 hr

theorem unquoteBytes_isSome (content : Bytes)
    (h : json.strRun .stateInString content = some .stateInString) :
    (json.unquoteBytes (ch '"' :: (content ++ [ch '"']))).isSome = true := by
  have h1 : (content ++ [ch '"']).getLast? = some (ch '"') := by simp
  have h2 : (content ++ [ch '"']).dropLast = content := by simp
  simp only [json.unquoteBytes, h1, h2]
  simp only [List.length_cons, List.length_append, List.length_singleton, bne_self_eq_false,
    Bool.or_false, decide_eq_true_eq]
  rw [if_neg (by omega)]
  exact unquoteLoop_isSome content.length content (le_refl _) h


theorem literalValue_isSome_of_ne (c : UInt8) (rest : Bytes) (h : c ≠ ch '"') :
    (json.literalValue (c :: rest)).isSome = true := by
  have h1 : (c == ch '"') = false := beq_false_of_ne h
  simp only [json.literalValue, h1]
  split_ifs <;> first | rfl | contradiction

theorem literalValue_string (item : Bytes) (h : (json.literalValue item).isSome = true)
    (hq : item.head? = some (ch '"')) : ∃ k, json.literalValue item = some (.string k) := by
  rcases item with _ | ⟨c, rest⟩
  · cases hq
  · simp only [List.head?_cons, Option.some.injEq] at hq
    subst hq
    have e : json.literalValue (ch '"' :: rest)
        = (json.unquoteBytes (ch '"' :: rest)).map .string := rfl
    rw [e] at h ⊢
    cases hu : json.unquoteBytes (ch '"' :: rest) with
    | none => rw [hu] at h; cases h
    | some k => exact ⟨k, rfl⟩

theorem literalValue_quoted (content : Bytes)
    (h : json.strRun .stateInString content = some .stateInString) :
    (json.literalValue (ch '"' :: (content ++ [ch '"']))).isSome = true := by
  have e : json.literalValue (ch '"' :: (content ++ [ch '"']))
      = (json.unquoteBytes (ch '"' :: (content ++ [ch '"']))).map .string := rfl
  rw [e, Option.isSome_map']
  exact unquoteBytes_isSome content h

/-- Flushing under a pending value gives a value, a string where a key is
read. -/
theorem flush_pending (d : json.decodeState) (key : Prop)
    (h : json.pendingOK key d.lit d.val) :
    ∃ v, d.flush = some { d with lit := none, val := some v } ∧ (key → ∃ k, v = .string k) := by
  rcases d with ⟨s, lit, val, st⟩
  rcases lit with _ | item <;> rcases val with _ | v <;> simp only [json.pendingOK] at h
  · exact ⟨v, rfl, h⟩
  · cases hl : json.literalValue item with
    | none => rw [hl] at h; cases h.1
    | some v =>
      refine ⟨v, by simp [json.decodeState.flush, hl], ?_⟩
      intro hk
      obtain ⟨k, hk2⟩ := literalValue_string item h.1 (h.2 hk)
      rw [hl] at hk2
      exact ⟨k, Option.some.inj hk2⟩


open json in
theorem feed_continue (d : decodeState) (c : UInt8) (s : scanner)
    (h : d.scan.call c = (s, .scanContinue)) :
    d.feed c = some { d with scan := s, lit := d.lit.map (· ++ [c]) } := by
  simp only [decodeState.feed, h]

open json in
theorem feed_beginLiteral (d : decodeState) (c : UInt8) (s : scanner)
    (h : d.scan.call c = (s, .scanBeginLiteral)) :
    d.feed c = some { d with scan := s, lit := some [c] } := by
  simp only [decodeState.feed, h]

open json in
theorem innerOK_not_key (ps : List ParseState) (fs : List Frame) (h : innerOK ps fs) :
    ps.head? ≠ some .parseObjectKey := by
  rcases ps with _ | ⟨p, ps⟩
  · simp
  · cases p <;> simp_all [innerOK]

open json in
theorem stackOK_of_innerOK (ps : List ParseState) (fs : List Frame) (h : innerOK ps fs) :
    stackOK ps fs := by
  rcases ps with _ | ⟨p, ps⟩
  · rcases fs with _ | ⟨f, fs⟩ <;> simp_all [stackOK, innerOK]
  · cases p
    · simp [innerOK] at h
    · unfold stackOK; exact h
    · unfold stackOK; exact h

open json in
theorem stackOK_nil (fs : List Frame) (h : stackOK [] fs) : fs = [] := by
  rcases fs with _ | ⟨f, fs⟩
  · rfl
  · simp [stackOK, innerOK] at h

open json in
theorem stackOK_key (rest : List ParseState) (fs : List Frame)
    (h : stackOK (.parseObjectKey :: rest) fs) :
    ∃ ms st, fs = .object ms none :: st ∧ innerOK rest st := by
  rcases fs with _ | ⟨f, st⟩
  · simp [stackOK] at h
  · rcases f with es | ⟨ms, _ | k⟩
    · simp [stackOK] at h
    · exact ⟨ms, st, rfl, by simpa [stackOK] using h⟩
    · simp [stackOK] at h

open json in
theorem stackOK_value (rest : List ParseState) (fs : List Frame)
    (h : stackOK (.parseObjectValue :: rest) fs) :
    ∃ ms k st, fs = .object ms (some k) :: st ∧ innerOK rest st := by
  rcases fs with _ | ⟨f, st⟩
  · simp [stackOK, innerOK] at h
  · rcases f with es | ⟨ms, _ | k⟩
    · simp [stackOK, innerOK] at h
    · simp [stackOK, innerOK] at h
    · exact ⟨ms, k, st, rfl, by simpa [stackOK, innerOK] using h⟩

open json in
theorem stackOK_array (rest : List ParseState) (fs : List Frame)
    (h : stackOK (.parseArrayValue :: rest) fs) :
    ∃ es st, fs = .array es :: st ∧ innerOK rest st := by
  rcases fs with _ | ⟨f, st⟩
  · simp [stackOK, innerOK] at h
  · rcases f with es | ⟨ms, _ | k⟩
    · exact ⟨es, st, rfl, by simpa [stackOK, innerOK] using h⟩
    · simp [stackOK, innerOK] at h
    · simp [stackOK, innerOK] at h


open json in
/-- The decoder's step on a byte that follows a complete value. -/
theorem feed_endValue (d : decodeState) (c : UInt8)
    (hst : stackOK d.scan.parseState d.stack)
    (hp : pendingOK (keyPos d.scan) d.lit d.val)
    (hend : d.scan.endTop = false)
    (hcall : d.scan.call c = stateEndValue d.scan c)
    (hop : (stateEndValue d.scan c).2 ≠ .scanError) :
    ∃ d1, d.feed c = some d1 ∧ d1.scan = (stateEndValue d.scan c).1 ∧ d1.Inv := by
  obtain ⟨v, hfl, hv⟩ := flush_pending d _ hp
  rcases d with ⟨s, lit, val, stack⟩
  rcases s with ⟨step, endTop, ps, err⟩
  simp only at hst hp hend hcall hop hfl hv
  subst hend
  simp only [decodeState.feed, hcall]
  rcases ps with _ | ⟨p, rest⟩
  · -- the top-level value is complete
    have hs := stackOK_nil _ hst
    subst hs
    simp only [stateEndValue, stateEndTop]
    by_cases hsp : isSpace c = true
    · simp only [hsp, Bool.not_true, Bool.false_eq_true, ↓reduceIte, hfl]
      refine ⟨_, rfl, rfl, ?_, ?_, ?_⟩
      · exact hst
      · simp [phaseOK, pendingOK]
      · intro _; left; rfl
    · simp only [hsp, Bool.not_false, ↓reduceIte, scanner.error, hfl]
      refine ⟨_, rfl, rfl, ?_, ?_, ?_⟩
      · exact hst
      · simp [phaseOK]
      · intro _; right; rfl
  · simp only [stateEndValue] at hop ⊢
    by_cases hsp : isSpace c = true
    · simp only [hsp, ↓reduceIte, hfl]
      refine ⟨_, rfl, rfl, ?_, ?_, ?_⟩
      · exact hst
      · simp only [phaseOK, pendingOK]
        exact hv
      · intro h; cases h
    · simp only [hsp, Bool.false_eq_true, ↓reduceIte] at hop ⊢
      cases p with
      | parseObjectKey =>
        simp only at hop ⊢
        by_cases hc : (c == ch ':') = true
        · simp only [hc, ↓reduceIte, hfl]
          obtain ⟨k, rfl⟩ := hv rfl
          obtain ⟨ms, st, rfl, hin⟩ := stackOK_key _ _ hst
          refine ⟨_, rfl, rfl, ?_, ?_, ?_⟩
          · simpa [stackOK, innerOK] using hin
          · simp [phaseOK, keyPos]
          · intro h; cases h
        · simp only [hc, Bool.false_eq_true, ↓reduceIte, scanner.error] at hop
          exact absurd rfl hop
      | parseObjectValue =>
        simp only at hop ⊢
        obtain ⟨ms, k, st, rfl, hin⟩ := stackOK_value _ _ hst
        by_cases hc : (c == ch ',') = true
        · simp only [hc, ↓reduceIte, hfl]
          refine ⟨_, rfl, rfl, ?_, ?_, ?_⟩
          · simpa [stackOK] using hin
          · simp [phaseOK, keyPos]
          · intro h; cases h
        · by_cases hc2 : (c == ch '}') = true
          · simp only [hc, hc2, Bool.false_eq_true, ↓reduceIte, hfl, scanner.popParseState,
              List.tail_cons]
            rcases rest with _ | ⟨p2, rest2⟩
            · have := (show st = [] from by
                rcases st with _ | ⟨f, st⟩
                · rfl
                · simp [innerOK] at hin)
              subst this
              refine ⟨_, rfl, rfl, ?_, ?_, ?_⟩
              · simp [stackOK, innerOK]
              · simp [phaseOK, pendingOK]
              · intro _; left; rfl
            · refine ⟨_, rfl, rfl, ?_, ?_, ?_⟩
              · exact stackOK_of_innerOK _ _ hin
              · have hk := innerOK_not_key _ _ hin
                simp only [List.length_cons, Nat.add_one_ne_zero, beq_iff_eq, ↓reduceIte, phaseOK,
                  pendingOK, keyPos]
                intro h
                exact absurd h hk
              · simp
          · simp only [hc, hc2, Bool.false_eq_true, ↓reduceIte, scanner.error] at hop
            exact absurd rfl hop
      | parseArrayValue =>
        simp only at hop ⊢
        obtain ⟨es, st, rfl, hin⟩ := stackOK_array _ _ hst
        by_cases hc : (c == ch ',') = true
        · simp only [hc, ↓reduceIte, hfl]
          refine ⟨_, rfl, rfl, ?_, ?_, ?_⟩
          · simpa [stackOK, innerOK] using hin
          · simp [phaseOK, keyPos]
          · intro h; cases h
        · by_cases hc2 : (c == ch ']') = true
          · simp only [hc, hc2, Bool.false_eq_true, ↓reduceIte, hfl, scanner.popParseState,
              List.tail_cons]
            rcases rest with _ | ⟨p2, rest2⟩
            · have := (show st = [] from by
                rcases st with _ | ⟨f, st⟩
                · rfl
                · simp [innerOK] at hin)
              subst this
              refine ⟨_, rfl, rfl, ?_, ?_, ?_⟩
              · simp [stackOK, innerOK]
              · simp [phaseOK, pendingOK]
              · intro _; left; rfl
            · refine ⟨_, rfl, rfl, ?_, ?_, ?_⟩
              · exact stackOK_of_innerOK _ _ hin
              · have hk := innerOK_not_key _ _ hin
                simp only [List.length_cons, Nat.add_one_ne_zero, beq_iff_eq, ↓reduceIte, phaseOK,
                  pendingOK, keyPos]
                intro h
                exact absurd h hk
              · simp
          · simp only [hc, hc2, Bool.false_eq_true, ↓reduceIte, scanner.error] at hop
            exact absurd rfl hop


open json in
theorem innerOK_of_stackOK (ps : List ParseState) (fs : List Frame) (h : stackOK ps fs)
    (hk : ps.head? ≠ some .parseObjectKey) : innerOK ps fs := by
  rcases ps with _ | ⟨p, ps⟩
  · rcases fs with _ | ⟨f, fs⟩ <;> simp_all [stackOK]
  · cases p
    · simp at hk
    · simpa [stackOK] using h
    · simpa [stackOK] using h

open json in
/-- The decoder's step on a byte inside a literal that is not a string and
goes on, or ends with this byte. -/
theorem feed_literal_continue (d : decodeState) (c : UInt8) (st1 : Step)
    (hst : stackOK d.scan.parseState d.stack)
    (hlit : d.val = none ∧ ¬ keyPos d.scan ∧ ∃ c0 rest, d.lit = some (c0 :: rest) ∧ c0 ≠ ch '"')
    (hend : d.scan.endTop = false)
    (hcall : d.scan.call c = ({ d.scan with step := st1 }, .scanContinue))
    (hphase : ∀ (s : scanner) (lit : Option Bytes) (val : Option Value), s.step = st1 →
      (val = none ∧ ¬ keyPos s ∧ ∃ c0 rest, lit = some (c0 :: rest) ∧ c0 ≠ ch '"') →
      phaseOK s lit val) :
    ∃ d1, d.feed c = some d1 ∧ d1.scan = (d.scan.call c).1 ∧ d1.Inv := by
  rw [feed_continue d c _ hcall, hcall]
  refine ⟨_, rfl, rfl, hst, ?_, ?_⟩
  · apply hphase _ _ _ rfl
    obtain ⟨hv, hk, c0, rest, hl, hc0⟩ := hlit
    refine ⟨hv, hk, c0, rest ++ [c], ?_, hc0⟩
    simp [hl]
  · intro h
    simp only at h
    rw [hend] at h
    cases h

open json in
theorem phaseOK_endValue_of_literal (s : scanner) (lit : Option Bytes) (val : Option Value)
    (hs : s.step = .stateEndValue)
    (h : val = none ∧ ¬ keyPos s ∧ ∃ c0 rest, lit = some (c0 :: rest) ∧ c0 ≠ ch '"') :
    phaseOK s lit val := by
  obtain ⟨rfl, hk, c0, rest, rfl, hc0⟩ := h
  simp only [phaseOK, hs, pendingOK]
  exact ⟨literalValue_isSome_of_ne c0 rest hc0, fun h => absurd h hk⟩

open json in
theorem pendingOK_of_literal (s : scanner) (lit : Option Bytes) (val : Option Value)
    (h : val = none ∧ ¬ keyPos s ∧ ∃ c0 rest, lit = some (c0 :: rest) ∧ c0 ≠ ch '"') :
    pendingOK (keyPos s) lit val := by
  obtain ⟨rfl, hk, c0, rest, rfl, hc0⟩ := h
  simp only [pendingOK]
  exact ⟨literalValue_isSome_of_ne c0 rest hc0, fun h => absurd h hk⟩

open json in
theorem phaseOK_literal (s : scanner) (c : UInt8) (hq : (c == ch '"') = false)
    (hk : ¬ keyPos s)
    (hs : s.step = .stateNeg ∨ s.step = .state0 ∨ s.step = .state1 ∨ s.step = .stateT
      ∨ s.step = .stateF ∨ s.step = .stateN) :
    phaseOK s (some [c]) none := by
  have hne : c ≠ ch '"' := by
    intro h; rw [h] at hq; simp at hq
  rcases hs with h | h | h | h | h | h <;> simp only [phaseOK, h] <;>
    exact ⟨by simp, hk, c, [], by simp, hne⟩

open json in
/-- The decoder's step on a byte where a value may begin. -/
theorem feed_beginValue (d : decodeState) (c : UInt8) (hI : d.Inv)
    (hl : d.lit = none) (hv : d.val = none) (hk : ¬ keyPos d.scan)
    (hend : d.scan.endTop = false)
    (hcall : d.scan.call c = stateBeginValue d.scan c)
    (hop : (stateBeginValue d.scan c).2 ≠ .scanError) :
    ∃ d1, d.feed c = some d1 ∧ d1.scan = (d.scan.call c).1 ∧ d1.Inv := by
  have hst := hI.1
  rcases d with ⟨s, lit, val, stack⟩
  rcases s with ⟨step, endTop, ps, err⟩
  simp only at hst hl hv hk hend hcall hop
  subst hl hv hend
  have hin := innerOK_of_stackOK _ _ hst hk
  simp only [decodeState.feed, hcall]
  simp only [stateBeginValue] at hop ⊢
  by_cases h0 : isSpace c = true
  · simp only [h0, ↓reduceIte, decodeState.flush]
    exact ⟨_, rfl, rfl, hI⟩
  simp only [h0, Bool.false_eq_true, ↓reduceIte] at hop ⊢
  by_cases h1 : (c == ch '{') = true
  · simp only [h1, ↓reduceIte, scanner.pushParseState] at hop ⊢
    split_ifs at hop ⊢ with hlen
    · simp only [decodeState.flush]
      refine ⟨_, rfl, rfl, ?_, ?_, ?_⟩
      · simpa [stackOK] using hin
      · simp [phaseOK, keyPos]
      · intro h; cases h
    · simp [scanner.error] at hop
  simp only [h1, Bool.false_eq_true, ↓reduceIte] at hop ⊢
  by_cases h2 : (c == ch '[') = true
  · simp only [h2, ↓reduceIte, scanner.pushParseState] at hop ⊢
    split_ifs at hop ⊢ with hlen
    · simp only [decodeState.flush]
      refine ⟨_, rfl, rfl, ?_, ?_, ?_⟩
      · simpa [stackOK, innerOK] using hin
      · simp [phaseOK]
      · intro h; cases h
    · simp [scanner.error] at hop
  simp only [h2, Bool.false_eq_true, ↓reduceIte] at hop ⊢
  by_cases h3 : (c == ch '"') = true
  · simp only [h3, ↓reduceIte]
    have hc : c = ch '"' := by simpa using h3
    refine ⟨_, rfl, rfl, hst, ?_, ?_⟩
    · simp only [phaseOK]
      exact ⟨by simp, [], by rw [hc], by simp [strRun]⟩
    · intro h; cases h
  simp only [h3, Bool.false_eq_true, ↓reduceIte] at hop ⊢
  have hq : (c == ch '"') = false := by simpa using h3
  have hk2 : ∀ st, ¬ keyPos (⟨st, false, ps, err⟩ : scanner) := fun _ => hk
  split_ifs at hop ⊢
  · exact ⟨_, rfl, rfl, hst, phaseOK_literal _ c hq (hk2 _) (Or.inl rfl), by intro h; cases h⟩
  · exact ⟨_, rfl, rfl, hst, phaseOK_literal _ c hq (hk2 _) (Or.inr (Or.inl rfl)),
      by intro h; cases h⟩
  · exact ⟨_, rfl, rfl, hst,
      phaseOK_literal _ c hq (hk2 _) (Or.inr (Or.inr (Or.inr (Or.inl rfl)))), by intro h; cases h⟩
  · exact ⟨_, rfl, rfl, hst,
      phaseOK_literal _ c hq (hk2 _) (Or.inr (Or.inr (Or.inr (Or.inr (Or.inl rfl))))),
      by intro h; cases h⟩
  · exact ⟨_, rfl, rfl, hst,
      phaseOK_literal _ c hq (hk2 _) (Or.inr (Or.inr (Or.inr (Or.inr (Or.inr rfl))))),
      by intro h; cases h⟩
  · exact ⟨_, rfl, rfl, hst, phaseOK_literal _ c hq (hk2 _) (Or.inr (Or.inr (Or.inl rfl))),
      by intro h; cases h⟩
  · simp [scanner.error] at hop

open json in
/-- The decoder's step on a byte where an object key may begin. -/
theorem feed_beginString (d : decodeState) (c : UInt8) (hI : d.Inv)
    (hl : d.lit = none) (hv : d.val = none)
    (hend : d.scan.endTop = false)
    (hcall : d.scan.call c = stateBeginString d.scan c)
    (hop : (stateBeginString d.scan c).2 ≠ .scanError) :
    ∃ d1, d.feed c = some d1 ∧ d1.scan = (d.scan.call c).1 ∧ d1.Inv := by
  have hst := hI.1
  rcases d with ⟨s, lit, val, stack⟩
  rcases s with ⟨step, endTop, ps, err⟩
  simp only at hst hl hv hend hcall hop
  subst hl hv hend
  simp only [decodeState.feed, hcall]
  simp only [stateBeginString] at hop ⊢
  by_cases h0 : isSpace c = true
  · simp only [h0, ↓reduceIte, decodeState.flush]
    exact ⟨_, rfl, rfl, hI⟩
  simp only [h0, Bool.false_eq_true, ↓reduceIte] at hop ⊢
  by_cases h3 : (c == ch '"') = true
  · simp only [h3, ↓reduceIte]
    have hc : c = ch '"' := by simpa using h3
    refine ⟨_, rfl, rfl, hst, ?_, ?_⟩
    · simp only [phaseOK]
      exact ⟨by simp, [], by rw [hc], by simp [strRun]⟩
    · intro h; cases h
  · simp [h3, scanner.error] at hop


open json in
theorem phaseOK_string (s : scanner) (lit : Option Bytes) (val : Option Value)
    (hs : s.step = .stateInString ∨ s.step = .stateInStringEsc ∨ s.step = .stateInStringEscU
      ∨ s.step = .stateInStringEscU1 ∨ s.step = .stateInStringEscU12
      ∨ s.step = .stateInStringEscU123) :
    phaseOK s lit val ↔ (val = none ∧ ∃ content, lit = some (ch '"' :: content)
      ∧ strRun .stateInString content = some s.step) := by
  rcases hs with h | h | h | h | h | h <;> simp only [phaseOK, h]

open json in
/-- The scanner's step inside a string literal: it goes on inside the string
as `strStep` says, or the string ends with a quote, or the byte is an error. -/
theorem call_string (s : scanner) (c : UInt8)
    (hs : s.step = .stateInString ∨ s.step = .stateInStringEsc ∨ s.step = .stateInStringEscU
      ∨ s.step = .stateInStringEscU1 ∨ s.step = .stateInStringEscU12
      ∨ s.step = .stateInStringEscU123) :
    (∃ st1, strStep s.step c = some st1 ∧ s.call c = ({ s with step := st1 }, .scanContinue)
        ∧ (st1 = .stateInString ∨ st1 = .stateInStringEsc ∨ st1 = .stateInStringEscU
          ∨ st1 = .stateInStringEscU1 ∨ st1 = .stateInStringEscU12
          ∨ st1 = .stateInStringEscU123))
      ∨ (s.step = .stateInString ∧ c = ch '"'
          ∧ s.call c = ({ s with step := .stateEndValue }, .scanContinue))
      ∨ (s.call c).2 = .scanError := by
  rcases s with ⟨step, endTop, ps, err⟩
  simp only at hs
  rcases hs with rfl | rfl | rfl | rfl | rfl | rfl
  · simp only [scanner.call, stateInString, strStep]
    by_cases h1 : (c == ch '"') = true
    · right; left
      exact ⟨trivial, by simpa using h1, by simp [h1]⟩
    · by_cases h2 : (c == ch '\\') = true
      · left
        exact ⟨.stateInStringEsc, by simp [h1, h2], by simp [h1, h2], by simp⟩
      · by_cases h3 : c < 32
        · right; right
          simp [h1, h2, h3, scanner.error]
        · left
          exact ⟨.stateInString, by simp [h1, h2, h3], by simp [h1, h2, h3], by simp⟩
  · simp only [scanner.call, stateInStringEsc, strStep]
    split_ifs
    · left; exact ⟨_, rfl, rfl, by simp⟩
    · left; exact ⟨_, rfl, rfl, by simp⟩
    · right; right; rfl
  · simp only [scanner.call, stateInStringEscHex, strStep]
    split_ifs
    · left; exact ⟨_, rfl, rfl, by simp⟩
    · right; right; rfl
  · simp only [scanner.call, stateInStringEscHex, strStep]
    split_ifs
    · left; exact ⟨_, rfl, rfl, by simp⟩
    · right; right; rfl
  · simp only [scanner.call, stateInStringEscHex, strStep]
    split_ifs
    · left; exact ⟨_, rfl, rfl, by simp⟩
    · right; right; rfl
  · simp only [scanner.call, stateInStringEscHex, strStep]
    split_ifs
    · left; exact ⟨_, rfl, rfl, by simp⟩
    · right; right; rfl

open json in
/-- The decoder's step on a byte inside a string literal. -/
theorem feed_string (d : decodeState) (c : UInt8) (hI : d.Inv)
    (hs : d.scan.step = .stateInString ∨ d.scan.step = .stateInStringEsc
      ∨ d.scan.step = .stateInStringEscU ∨ d.scan.step = .stateInStringEscU1
      ∨ d.scan.step = .stateInStringEscU12 ∨ d.scan.step = .stateInStringEscU123)
    (hend : d.scan.endTop = false)
    (hop : (d.scan.call c).2 ≠ .scanError) :
    ∃ d1, d.feed c = some d1 ∧ d1.scan = (d.scan.call c).1 ∧ d1.Inv := by
  obtain ⟨hst, hph, -⟩ := hI
  rw [phaseOK_string _ _ _ hs] at hph
  obtain ⟨hv, content, hl, hrun⟩ := hph
  rcases call_string d.scan c hs with ⟨st1, hstep, hcall, hst1⟩ | ⟨hin, hc, hcall⟩ | herr
  · rw [feed_continue d c _ hcall, hcall]
    refine ⟨_, rfl, rfl, hst, ?_, ?_⟩
    · rw [phaseOK_string _ _ _ hst1]
      refine ⟨hv, content ++ [c], by simp [hl], ?_⟩
      rw [strRun_append, hrun]
      simp [strRun, hstep]
    · intro h
      simp only at h
      rw [hend] at h
      cases h
  · rw [feed_continue d c _ hcall, hcall]
    refine ⟨_, rfl, rfl, hst, ?_, ?_⟩
    · rw [hin] at hrun
      subst hc
      simp only [phaseOK, hl, hv, Option.map_some', List.cons_append, pendingOK]
      exact ⟨literalValue_quoted content hrun, fun _ => rfl⟩
    · intro h
      simp only at h
      rw [hend] at h
      cases h
  · exact absurd herr hop


open json in
theorem phaseOK_literalStep (s : scanner) (lit : Option Bytes) (val : Option Value)
    (hs : isLiteralStep s.step = true) :
    phaseOK s lit val ↔
      (val = none ∧ ¬ keyPos s ∧ ∃ c0 rest, lit = some (c0 :: rest) ∧ c0 ≠ ch '"') := by
  rcases s with ⟨step, endTop, ps, err⟩
  cases step <;> simp only [isLiteralStep, Bool.false_eq_true] at hs <;> simp only [phaseOK]

open json in
/-- The scanner's step inside a literal that is not a string: the literal
goes on or ends with this byte, or it ended before this byte, or the byte is
an error. -/
theorem call_literal (s : scanner) (c : UInt8) (hs : isLiteralStep s.step = true) :
    (∃ st1, (isLiteralStep st1 = true ∨ st1 = .stateEndValue)
        ∧ s.call c = ({ s with step := st1 }, .scanContinue))
      ∨ s.call c = stateEndValue s c
      ∨ (s.call c).2 = .scanError := by
  rcases s with ⟨step, endTop, ps, err⟩
  cases step <;> simp only [isLiteralStep, Bool.false_eq_true] at hs
  case stateNeg =>
    simp only [scanner.call, stateNeg]
    split_ifs
    · left; exact ⟨.state0, Or.inl rfl, rfl⟩
    · left; exact ⟨.state1, Or.inl rfl, rfl⟩
    · right; right; rfl
  case state1 =>
    simp only [scanner.call, state1, state0]
    split_ifs
    · left; exact ⟨.state1, Or.inl rfl, rfl⟩
    · left; exact ⟨.stateDot, Or.inl rfl, rfl⟩
    · left; exact ⟨.stateE, Or.inl rfl, rfl⟩
    · right; left; rfl
  case state0 =>
    simp only [scanner.call, state0]
    split_ifs
    · left; exact ⟨.stateDot, Or.inl rfl, rfl⟩
    · left; exact ⟨.stateE, Or.inl rfl, rfl⟩
    · right; left; rfl
  case stateDot =>
    simp only [scanner.call, stateDot]
    split_ifs
    · left; exact ⟨.stateDot0, Or.inl rfl, rfl⟩
    · right; right; rfl
  case stateDot0 =>
    simp only [scanner.call, stateDot0]
    split_ifs
    · left; exact ⟨.stateDot0, Or.inl rfl, rfl⟩
    · left; exact ⟨.stateE, Or.inl rfl, rfl⟩
    · right; left; rfl
  case stateE =>
    simp only [scanner.call, stateE, stateESign]
    split_ifs
    · left; exact ⟨.stateESign, Or.inl rfl, rfl⟩
    · left; exact ⟨.stateE0, Or.inl rfl, rfl⟩
    · right; right; rfl
  case stateESign =>
    simp only [scanner.call, stateESign]
    split_ifs
    · left; exact ⟨.stateE0, Or.inl rfl, rfl⟩
    · right; right; rfl
  case stateE0 =>
    simp only [scanner.call, stateE0]
    split_ifs
    · left; exact ⟨.stateE0, Or.inl rfl, rfl⟩
    · right; left; rfl
  case stateT =>
    simp only [scanner.call, stateLetter]
    split_ifs
    · left; exact ⟨.stateTr, Or.inl rfl, rfl⟩
    · right; right; rfl
  case stateTr =>
    simp only [scanner.call, stateLetter]
    split_ifs
    · left; exact ⟨.stateTru, Or.inl rfl, rfl⟩
    · right; right; rfl
  case stateTru =>
    simp only [scanner.call, stateLetter]
    split_ifs
    · left; exact ⟨.stateEndValue, Or.inr rfl, rfl⟩
    · right; right; rfl
  case stateF =>
    simp only [scanner.call, stateLetter]
    split_ifs
    · left; exact ⟨.stateFa, Or.inl rfl, rfl⟩
    · right; right; rfl
  case stateFa =>
    simp only [scanner.call, stateLetter]
    split_ifs
    · left; exact ⟨.stateFal, Or.inl rfl, rfl⟩
    · right; right; rfl
  case stateFal =>
    simp only [scanner.call, stateLetter]
    split_ifs
    · left; exact ⟨.stateFals, Or.inl rfl, rfl⟩
    · right; right; rfl
  case stateFals =>
    simp only [scanner.call, stateLetter]
    split_ifs
    · left; exact ⟨.stateEndValue, Or.inr rfl, rfl⟩
    · right; right; rfl
  case stateN =>
    simp only [scanner.call, stateLetter]
    split_ifs
    · left; exact ⟨.stateNu, Or.inl rfl, rfl⟩
    · right; right; rfl
  case stateNu =>
    simp only [scanner.call, stateLetter]
    split_ifs
    · left; exact ⟨.stateNul, Or.inl rfl, rfl⟩
    · right; right; rfl
  case stateNul =>
    simp only [scanner.call, stateLetter]
    split_ifs
    · left; exact ⟨.stateEndValue, Or.inr rfl, rfl⟩
    · right; right; rfl

open json in
/-- The decoder's step on a byte inside or right after a literal that is not
a string. -/
theorem feed_literal (d : decodeState) (c : UInt8) (hI : d.Inv)
    (hs : isLiteralStep d.scan.step = true) (hend : d.scan.endTop = false)
    (hop : (d.scan.call c).2 ≠ .scanError) :
    ∃ d1, d.feed c = some d1 ∧ d1.scan = (d.scan.call c).1 ∧ d1.Inv := by
  obtain ⟨hst, hph, -⟩ := hI
  rw [phaseOK_literalStep _ _ _ hs] at hph
  rcases call_literal d.scan c hs with ⟨st1, hst1, hcall⟩ | hcall | herr
  · apply feed_literal_continue d c st1 hst hph hend hcall
    intro s lit val hstep h
    rcases hst1 with h1 | h1
    · rw [phaseOK_literalStep _ _ _ (by rw [hstep]; exact h1)]
      exact h
    · exact phaseOK_endValue_of_literal s lit val (by rw [hstep, h1]) h
  · rw [hcall] at hop ⊢
    exact feed_endValue d c hst (pendingOK_of_literal _ _ _ hph) hend hcall hop
  · exact absurd herr hop


open json in
theorem isSpace_bracket (c : UInt8) (h : (c == ch ']') = true ∨ (c == ch '}') = true) :
    isSpace c = false := by
  rcases h with h | h
  · have hc : c = ch ']' := by simpa using h
    subst hc; decide
  · have hc : c = ch '}' := by simpa using h
    subst hc; decide

open json in
theorem popParseState_inv (s : scanner) (p : ParseState) (rest : List ParseState)
    (st : List Frame) (v : Value) (hps : s.parseState = p :: rest) (hin : innerOK rest st)
    (hend : s.endTop = false) :
    decodeState.Inv ⟨s.popParseState, none, some v, st⟩ := by
  rcases s with ⟨step, endTop, ps, err⟩
  simp only at hps hend
  subst hps hend
  simp only [scanner.popParseState, List.tail_cons]
  rcases rest with _ | ⟨p2, rest2⟩
  · have hst : st = [] := by
      rcases st with _ | ⟨f, st⟩
      · rfl
      · simp [innerOK] at hin
    subst hst
    refine ⟨?_, ?_, ?_⟩
    · simp [stackOK, innerOK]
    · simp [phaseOK, pendingOK]
    · intro _; left; rfl
  · refine ⟨?_, ?_, ?_⟩
    · exact stackOK_of_innerOK _ _ hin
    · have hk := innerOK_not_key _ _ hin
      simp only [List.length_cons, Nat.add_one_ne_zero, beq_iff_eq, ↓reduceIte, phaseOK,
        pendingOK, keyPos]
      intro h
      exact absurd h hk
    · simp

open json in
theorem feed_result (d d1 : decodeState) (c : UInt8) (s1 : scanner) (op : Op)
    (hcall : d.scan.call c = (s1, op)) (hfeed : d.feed c = some d1) (hscan : d1.scan = s1)
    (hInv : d1.Inv) : ∃ d1, d.feed c = some d1 ∧ d1.scan = (d.scan.call c).1 ∧ d1.Inv :=
  ⟨d1, hfeed, by rw [hcall]; exact hscan, hInv⟩

open json in
/-- The decoder's step preserves the invariant, and fails only where the
scanner reports an error. -/
theorem feed_inv (d : decodeState) (c : UInt8) (hI : d.Inv)
    (hop : (d.scan.call c).2 ≠ .scanError) :
    ∃ d1, d.feed c = some d1 ∧ d1.scan = (d.scan.call c).1 ∧ d1.Inv := by
  by_cases hlit : isLiteralStep d.scan.step = true
  · have hend : d.scan.endTop = false := by
      cases he : d.scan.endTop with
      | false => rfl
      | true =>
        rcases hI.2.2 he with h | h <;> rw [h] at hlit <;> simp [isLiteralStep] at hlit
    exact feed_literal d c hI hlit hend hop
  by_cases hstr : d.scan.step = .stateInString ∨ d.scan.step = .stateInStringEsc
      ∨ d.scan.step = .stateInStringEscU ∨ d.scan.step = .stateInStringEscU1
      ∨ d.scan.step = .stateInStringEscU12 ∨ d.scan.step = .stateInStringEscU123
  · have hend : d.scan.endTop = false := by
      cases he : d.scan.endTop with
      | false => rfl
      | true =>
        rcases hI.2.2 he with h | h <;> rw [h] at hstr <;> simp at hstr
    exact feed_string d c hI hstr hend hop
  rcases d with ⟨s, lit, val, stack⟩
  rcases s with ⟨step, endTop, ps, err⟩
  simp only at hlit hstr hop
  cases step <;> simp only [isLiteralStep, not_true_eq_false, reduceCtorEq, or_self, or_false,
    false_or, not_false_eq_true] at hlit hstr
  · -- stateBeginValueOrEmpty
    obtain ⟨hst, ⟨hl, hv, hk⟩, he⟩ := id hI
    simp only at hl hv hk hst he
    have hend : endTop = false := by
      cases endTop
      · rfl
      · simp at he
    subst hl hv hend
    by_cases h0 : isSpace c = true
    · have hcall : (⟨.stateBeginValueOrEmpty, false, ps, err⟩ : scanner).call c
          = (⟨.stateBeginValueOrEmpty, false, ps, err⟩, .scanSkipSpace) := by
        simp [scanner.call, stateBeginValueOrEmpty, h0]
      exact feed_result _ _ c _ _ hcall
        (by simp only [decodeState.feed, hcall, decodeState.flush]) rfl hI
    by_cases h1 : (c == ch ']') = true
    · rcases ps with _ | ⟨p, rest⟩
      · simp at hk
      · simp only [List.head?_cons, Option.some.injEq] at hk
        subst hk
        obtain ⟨es, st, rfl, hin⟩ := stackOK_array _ _ hst
        have hcm : (c == ch ',') = false := by
          have hc : c = ch ']' := by simpa using h1
          subst hc; decide
        have hcall : (⟨.stateBeginValueOrEmpty, false, .parseArrayValue :: rest, err⟩
            : scanner).call c
            = (scanner.popParseState
                ⟨.stateBeginValueOrEmpty, false, .parseArrayValue :: rest, err⟩,
              .scanEndArray) := by
          simp [scanner.call, stateBeginValueOrEmpty, h0, h1, stateEndValue, hcm]
        exact feed_result _ ⟨scanner.popParseState
            ⟨.stateBeginValueOrEmpty, false, .parseArrayValue :: rest, err⟩,
            none, some (.array es), st⟩ c _ _ hcall
          (by simp only [decodeState.feed, hcall, decodeState.flush]) rfl
          (popParseState_inv _ _ _ _ _ rfl hin rfl)
    · have hcall : (⟨.stateBeginValueOrEmpty, false, ps, err⟩ : scanner).call c
          = stateBeginValue ⟨.stateBeginValueOrEmpty, false, ps, err⟩ c := by
        simp [scanner.call, stateBeginValueOrEmpty, h0, h1]
      apply feed_beginValue _ c hI rfl rfl _ rfl hcall
      · rw [← hcall]; exact hop
      · simp [keyPos, hk]
  · -- stateBeginValue
    obtain ⟨hst, ⟨hl, hv, hk⟩, he⟩ := id hI
    simp only at hl hv hk hst he
    have hend : endTop = false := by
      cases endTop
      · rfl
      · simp at he
    subst hl hv hend
    exact feed_beginValue _ c hI rfl rfl hk rfl rfl hop
  · -- stateBeginStringOrEmpty
    obtain ⟨hst, ⟨hl, hv, hk⟩, he⟩ := id hI
    simp only at hl hv hk hst he
    have hend : endTop = false := by
      cases endTop
      · rfl
      · simp at he
    subst hl hv hend
    by_cases h0 : isSpace c = true
    · have hcall : (⟨.stateBeginStringOrEmpty, false, ps, err⟩ : scanner).call c
          = (⟨.stateBeginStringOrEmpty, false, ps, err⟩, .scanSkipSpace) := by
        simp [scanner.call, stateBeginStringOrEmpty, h0]
      exact feed_result _ _ c _ _ hcall
        (by simp only [decodeState.feed, hcall, decodeState.flush]) rfl hI
    by_cases h1 : (c == ch '}') = true
    · rcases ps with _ | ⟨p, rest⟩
      · simp [keyPos] at hk
      · simp only [keyPos, List.head?_cons, Option.some.injEq] at hk
        subst hk
        obtain ⟨ms, st, rfl, hin⟩ := stackOK_key _ _ hst
        have hcm : (c == ch ',') = false := by
          have hc : c = ch '}' := by simpa using h1
          subst hc; decide
        have hcall : (⟨.stateBeginStringOrEmpty, false, .parseObjectKey :: rest, err⟩
            : scanner).call c
            = (scanner.popParseState
                ⟨.stateBeginStringOrEmpty, false, .parseObjectValue :: rest, err⟩,
              .scanEndObject) := by
          simp [scanner.call, stateBeginStringOrEmpty, h0, h1, stateEndValue, hcm]
        exact feed_result _ ⟨scanner.popParseState
            ⟨.stateBeginStringOrEmpty, false, .parseObjectValue :: rest, err⟩,
            none, some (.object ms), st⟩ c _ _ hcall
          (by simp only [decodeState.feed, hcall, decodeState.flush]) rfl
          (popParseState_inv _ _ _ _ _ rfl hin rfl)
    · have hcall : (⟨.stateBeginStringOrEmpty, false, ps, err⟩ : scanner).call c
          = stateBeginString ⟨.stateBeginStringOrEmpty, false, ps, err⟩ c := by
        simp [scanner.call, stateBeginStringOrEmpty, h0, h1]
      apply feed_beginString _ c hI rfl rfl rfl hcall
      rw [← hcall]; exact hop
  · -- stateBeginString
    obtain ⟨hst, ⟨hl, hv, hk⟩, he⟩ := id hI
    simp only at hl hv hk hst he
    have hend : endTop = false := by
      cases endTop
      · rfl
      · simp at he
    subst hl hv hend
    exact feed_beginString _ c hI rfl rfl rfl rfl hop
  · -- stateEndValue
    obtain ⟨hst, hph, he⟩ := id hI
    simp only at hst hph he
    have hend : endTop = false := by
      cases endTop
      · rfl
      · simp at he
    subst hend
    exact feed_endValue _ c hst hph rfl rfl hop
  · -- stateEndTop
    obtain ⟨hst, ⟨hps, hph⟩, he⟩ := id hI
    simp only at hst hps hph he
    subst hps
    obtain ⟨v, hfl, -⟩ := flush_pending ⟨⟨.stateEndTop, endTop, [], err⟩, lit, val, stack⟩ _ hph
    by_cases h0 : isSpace c = true
    · have hcall : (⟨.stateEndTop, endTop, [], err⟩ : scanner).call c
          = (⟨.stateEndTop, endTop, [], err⟩, .scanEnd) := by
        simp [scanner.call, stateEndTop, h0]
      refine feed_result _ ⟨⟨.stateEndTop, endTop, [], err⟩, none, some v, stack⟩ c _ _ hcall
        (by simp only [decodeState.feed, hcall, hfl]) rfl ⟨hst, ?_, ?_⟩
      · simp [phaseOK, pendingOK]
      · intro _; left; rfl
    · have hcall : (⟨.stateEndTop, endTop, [], err⟩ : scanner).call c
          = (⟨.stateError, endTop, [], true⟩, .scanEnd) := by
        simp [scanner.call, stateEndTop, h0, scanner.error]
      refine feed_result _ ⟨⟨.stateError, endTop, [], true⟩, none, some v, stack⟩ c _ _ hcall
        (by simp only [decodeState.feed, hcall, hfl]) rfl ⟨hst, ?_, ?_⟩
      · simp [phaseOK]
      · intro _; right; rfl
  · -- stateError
    simp [scanner.call] at hop


open json in
theorem init_inv : decodeState.init.Inv := by
  refine ⟨?_, ?_, ?_⟩
  · simp [decodeState.init, scanner.reset, stackOK, innerOK]
  · simp [decodeState.init, scanner.reset, phaseOK, keyPos]
  · intro h; cases h

open json in
theorem scanAll_cons (s s1 : scanner) (c : UInt8) (rest : Bytes)
    (h : scanAll s (c :: rest) = some s1) :
    (s.call c).2 ≠ .scanError ∧ scanAll (s.call c).1 rest = some s1 := by
  rw [scanAll] at h
  rcases hc : s.call c with ⟨s2, op⟩
  rw [hc] at h
  cases op <;> first | exact ⟨by simp, h⟩ | cases h

open json in
/-- The decoder walks over all the data the scanner accepts, in step with
the scanner. -/
theorem feedAll_inv (data : Bytes) : ∀ (d : decodeState) (s1 : scanner), d.Inv →
    scanAll d.scan data = some s1 → ∃ d1, d.feedAll data = some d1 ∧ d1.scan = s1 ∧ d1.Inv := by
  induction data with
  | nil =>
    intro d s1 hI h
    simp only [scanAll, Option.some.injEq] at h
    exact ⟨d, rfl, h, hI⟩
  | cons c rest ih =>
    intro d s1 hI h
    obtain ⟨hop, hrest⟩ := scanAll_cons _ _ _ _ h
    obtain ⟨d1, hf, hs, hI1⟩ := feed_inv d c hI hop
    rw [← hs] at hrest
    obtain ⟨d2, hf2, hs2, hI2⟩ := ih d1 s1 hI1 hrest
    refine ⟨d2, ?_, hs2, hI2⟩
    simp only [decodeState.feedAll, hf, hf2]

open json in
/-- Where the input may end, the scanner is outside every composite and after
a complete value. -/
theorem eof_call (s : scanner) (h0 : s.endTop = false)
    (h1 : (s.call (ch ' ')).1.endTop = true) :
    s.parseState = [] ∧ (s.step = .stateEndValue ∨ isLiteralStep s.step = true) := by
  rcases s with ⟨step, endTop, ps, err⟩
  simp only at h0
  subst h0
  rcases ps with _ | ⟨p, rest⟩
  · cases step <;> first
      | exact ⟨rfl, Or.inl rfl⟩
      | exact ⟨rfl, Or.inr rfl⟩
      | exact Bool.noConfusion h1
  · cases step <;> exact Bool.noConfusion h1


open json in
/-- At the end of data the scanner accepts, the decoder holds one complete
value and no open composite. -/
theorem eof_pending (d : decodeState) (hI : d.Inv) (he : d.scan.eof = true) :
    d.stack = [] ∧ pendingOK False d.lit d.val := by
  obtain ⟨hst, hph, hend⟩ := hI
  simp only [scanner.eof] at he
  split_ifs at he with herr htop
  · -- the top-level value ended before the end of the data
    rcases hend htop with h | h
    · simp only [phaseOK, h] at hph
      rw [hph.1] at hst
      exact ⟨stackOK_nil _ hst, hph.2⟩
    · simp only [phaseOK, h] at hph
      exact absurd hph herr
  · -- the top-level value ends with the data
    have htop0 : d.scan.endTop = false := by simpa using htop
    obtain ⟨hps, hstep⟩ := eof_call d.scan htop0 he
    rw [hps] at hst
    refine ⟨stackOK_nil _ hst, ?_⟩
    have hk : ¬ keyPos d.scan := by simp [keyPos, hps]
    have hp : pendingOK (keyPos d.scan) d.lit d.val := by
      rcases hstep with h | h
      · simpa only [phaseOK, h] using hph
      · rw [phaseOK_literalStep _ _ _ h] at hph
        exact pendingOK_of_literal _ _ _ hph
    rcases hl : d.lit with _ | item <;> rcases hv : d.val with _ | v <;>
      simp only [pendingOK, hl, hv] at hp ⊢
    · exact fun h => absurd h (by simp)
    · exact ⟨hp.1, fun h => absurd h (by simp)⟩

open json in
/-- The decoder reads a value from all the data `checkValid` accepts: the
second failure case of `Unmarshal` never happens. -/
theorem decodeValue_of_checkValid (data : Bytes) (h : checkValid data = true) :
    ∃ v, decodeValue data = some v := by
  simp only [checkValid] at h
  cases hs : scanAll scanner.reset data with
  | none => rw [hs] at h; cases h
  | some s =>
    rw [hs] at h
    simp only at h
    obtain ⟨d1, hf, hscan, hI⟩ := feedAll_inv data decodeState.init s init_inv hs
    rw [← hscan] at h
    obtain ⟨hstack, hp⟩ := eof_pending d1 hI h
    obtain ⟨v, hfl, -⟩ := flush_pending d1 _ hp
    refine ⟨v, ?_⟩
    simp only [decodeValue, hf, hfl, hstack]

/-- The result of `json.Unmarshal` on data `checkValid` accepts: the value read is stored
in the event, and the error is the type error of the store, if any. -/
theorem Unmarshal_of_valid (body : Bytes) (evt : webhookEvent)
    (hv : json.checkValid body = true) :
    ∃ v, json.decodeValue body = some v
      ∧ json.Unmarshal body evt =
        ((json.storeEvent v evt).1,
          if (json.storeEvent v evt).2 then some .UnmarshalTypeError else none) := by
  obtain ⟨v, hd⟩ := decodeValue_of_checkValid body hv
  exact ⟨v, hd, by simp [json.Unmarshal, hv, hd]⟩


/-! ## The handler -/

theorem handler_of_post (cfg : Config) (r : http.Request) (body : Bytes)
    (hm : r.Method = ascii "POST") (hb : r.Body = some body) :
    handler cfg r =
      if cfg.githubSecret != [] then
        if r.Header.Get (ascii "x-hub-signature") == [] then ⟨some 401, [.readBody]⟩
        else if !verifyGithubSignature (r.Header.Get (ascii "x-hub-signature")) cfg.githubSecret body
          then ⟨some 401, [.readBody, .verifySignature]⟩
        else route cfg r body [.readBody, .verifySignature]
      else if r.Header.Get (ascii "x-hub-signature") != [] then ⟨some 401, [.readBody]⟩
      else route cfg r body [.readBody] := by
  unfold handler
  simp [hm, hb]

theorem route_status (cfg : Config) (r : http.Request) (body : Bytes) (done : List Effect) :
    (route cfg r body done).status = 200 ∨ (route cfg r body done).status = 422
      ∨ (route cfg r body done).status = 500 ∨ (route cfg r body done).status = 503 := by
  simp only [route]
  split_ifs <;> simp [Result.status]

theorem route_status_ne_401 (cfg : Config) (r : http.Request) (body : Bytes)
    (done : List Effect) : (route cfg r body done).status ≠ 401 := by
  rcases route_status cfg r body done with h | h | h | h <;> omega

theorem Get_nil_of_not_present (h : http.Header) (key : Bytes)
    (hp : h.present key = false) : h.Get key = [] := by
  unfold http.Header.present at hp
  unfold http.Header.Get
  cases hl : List.lookup (http.CanonicalMIMEHeaderKey key) h with
  | none => rfl
  | some v => simp [hl] at hp

/-- The handler on a POST request whose body was read and which passes the
signature policy: the rest of the pipeline runs. -/
theorem handler_of_auth (cfg : Config) (r : http.Request) (body : Bytes)
    (hm : r.Method = ascii "POST") (hb : r.Body = some body)
    (ha : passesAuth cfg.githubSecret (r.Header.Get (ascii "x-hub-signature")) body = true) :
    handler cfg r = route cfg r body
      (if cfg.githubSecret != [] then [.readBody, .verifySignature] else [.readBody]) := by
  rw [handler_of_post cfg r body hm hb]
  unfold passesAuth at ha
  by_cases hs : cfg.githubSecret = []
  · simp [hs] at ha ⊢
    simp [ha]
  · simp [hs] at ha ⊢
    simp [ha.1, ha.2]

/-- The handler on a POST request whose body was read and which fails the
signature policy: 401, and neither decode nor publish. -/
theorem handler_of_not_auth (cfg : Config) (r : http.Request) (body : Bytes)
    (hm : r.Method = ascii "POST") (hb : r.Body = some body)
    (ha : passesAuth cfg.githubSecret (r.Header.Get (ascii "x-hub-signature")) body = false) :
    (handler cfg r).status = 401 ∧ (handler cfg r).decoded = false
      ∧ (handler cfg r).publishCalls = [] := by
  rw [handler_of_post cfg r body hm hb]
  unfold passesAuth at ha
  by_cases hs : cfg.githubSecret = []
  · simp [hs] at ha ⊢
    simp [ha, Result.status, Result.decoded, Result.publishCalls]
  · simp [hs] at ha ⊢
    by_cases hsig : r.Header.Get (ascii "x-hub-signature") = []
    · simp [hsig, Result.status, Result.decoded, Result.publishCalls]
    · simp [hsig, ha hsig, Result.status, Result.decoded, Result.publishCalls]

theorem route_publishCalls (cfg : Config) (r : http.Request) (body : Bytes) (done : List Effect)
    (hd : (Result.publishCalls ⟨none, done⟩) = []) :
    (route cfg r body done).publishCalls = []
      ∨ ∃ ch, (route cfg r body done).publishCalls = [(ch, body)]
          ∧ (route cfg r body done).status = if cfg.Publish ch body then 503 else 200 := by
  simp only [Result.publishCalls] at hd
  simp only [route]
  split_ifs with h1 h2 h3 h4
  · left; simpa [Result.publishCalls] using hd
  · left; simp [Result.publishCalls, List.filterMap_append, hd]
  · left; simp [Result.publishCalls, List.filterMap_append, hd]
  · right
    refine ⟨(template.Execute cfg.channelTmpl
      { Owner := (json.Unmarshal body webhookEvent.zero).1.Repository.Owner.Login,
        Repo := (json.Unmarshal body webhookEvent.zero).1.Repository.Name,
        Event := r.Header.Get (ascii "x-github-event") }).1, ?_, ?_⟩
    · simp [Result.publishCalls, List.filterMap_append, hd]
    · simp [Result.status, h4]
  · right
    refine ⟨(template.Execute cfg.channelTmpl
      { Owner := (json.Unmarshal body webhookEvent.zero).1.Repository.Owner.Login,
        Repo := (json.Unmarshal body webhookEvent.zero).1.Repository.Name,
        Event := r.Header.Get (ascii "x-github-event") }).1, ?_, ?_⟩
    · simp [Result.publishCalls, List.filterMap_append, hd]
    · simp [Result.status, h4]

theorem handler_publishCalls (cfg : Config) (r : http.Request) :
    (handler cfg r).publishCalls = []
      ∨ ∃ ch body, r.Body = some body ∧ (handler cfg r).publishCalls = [(ch, body)]
          ∧ (handler cfg r).status = (if cfg.Publish ch body then 503 else 200)
          ∧ passesAuth cfg.githubSecret (r.Header.Get (ascii "x-hub-signature")) body = true := by
  by_cases hm : r.Method = ascii "POST"
  · cases hb : r.Body with
    | none => left; simp [handler, hm, hb, Result.publishCalls]
    | some body =>
      cases ha : passesAuth cfg.githubSecret (r.Header.Get (ascii "x-hub-signature")) body with
      | false => left; exact (handler_of_not_auth cfg r body hm hb ha).2.2
      | true =>
        rw [handler_of_auth cfg r body hm hb ha]
        have hd : Result.publishCalls ⟨none,
            (if cfg.githubSecret != [] then [.readBody, .verifySignature] else [.readBody])⟩ = [] := by
          split_ifs <;> simp [Result.publishCalls]
        rcases route_publishCalls cfg r body _ hd with h | ⟨ch, h1, h2⟩
        · left; exact h
        · right; exact ⟨ch, body, rfl, h1, h2, ha⟩
  · left; simp [handler, hm, Result.publishCalls]


theorem route_ping (cfg : Config) (r : http.Request) (body : Bytes) (done : List Effect)
    (he : r.Header.Get (ascii "x-github-event") = ascii "ping") :
    route cfg r body done = ⟨none, done⟩ := by
  simp [route, he]

theorem route_unmarshal_error (cfg : Config) (r : http.Request) (body : Bytes)
    (done : List Effect) (he : r.Header.Get (ascii "x-github-event") ≠ ascii "ping")
    (hu : (json.Unmarshal body webhookEvent.zero).2.isSome = true) :
    route cfg r body done = ⟨some 422, done ++ [.unmarshal]⟩ := by
  simp [route, he, hu]

theorem route_unmarshal_ok (cfg : Config) (r : http.Request) (body : Bytes)
    (done : List Effect) (he : r.Header.Get (ascii "x-github-event") ≠ ascii "ping")
    (hu : (json.Unmarshal body webhookEvent.zero).2 = none) :
    (route cfg r body done).status ≠ 422 ∧ (route cfg r body done).decoded = true := by
  simp only [route]
  simp only [beq_iff_eq, he, hu, ↓reduceIte, Option.isSome_none, Bool.false_eq_true]
  split_ifs <;> simp [Result.status, Result.decoded]

/-- C2: with a secret configured, a POST request whose body was read is
answered 401 without decode or publish exactly when the signature header is
missing or the signature does not verify; with a signature that verifies the
handler goes on to the ping check and the decode, and the answer is not 401. -/
theorem secret_configured_policy (cfg : Config) (r : http.Request) (body : Bytes)
    (hs : cfg.githubSecret ≠ []) (hm : r.Method = ascii "POST") (hb : r.Body = some body) :
    (((handler cfg r).status = 401 ∧ (handler cfg r).decoded = false
          ∧ (handler cfg r).publishCalls = []) ↔
        (r.Header.present (ascii "x-hub-signature") = false
          ∨ verifyGithubSignature (r.Header.Get (ascii "x-hub-signature")) cfg.githubSecret body
              = false))
      ∧ (verifyGithubSignature (r.Header.Get (ascii "x-hub-signature")) cfg.githubSecret body
            = true →
          (handler cfg r).status ≠ 401
            ∧ handler cfg r = route cfg r body [.readBody, .verifySignature]) := by
  have hv0 : r.Header.Get (ascii "x-hub-signature") = [] →
      verifyGithubSignature (r.Header.Get (ascii "x-hub-signature")) cfg.githubSecret body
        = false := by
    intro h0
    rw [h0]
    exact verify_nil _ _
  have hauth : passesAuth cfg.githubSecret (r.Header.Get (ascii "x-hub-signature")) body
      = verifyGithubSignature (r.Header.Get (ascii "x-hub-signature")) cfg.githubSecret body := by
    unfold passesAuth
    by_cases h0 : r.Header.Get (ascii "x-hub-signature") = []
    · simp [hs, h0, verify_nil]
    · simp [hs, h0]
  have hok : verifyGithubSignature (r.Header.Get (ascii "x-hub-signature")) cfg.githubSecret body
      = true → (handler cfg r).status ≠ 401
        ∧ handler cfg r = route cfg r body [.readBody, .verifySignature] := by
    intro hv
    have h := handler_of_auth cfg r body hm hb (hauth.trans hv)
    simp only [bne_iff_ne, ne_eq, hs, not_false_eq_true, ↓reduceIte] at h
    rw [h]
    exact ⟨route_status_ne_401 _ _ _ _, rfl⟩
  refine ⟨⟨?_, ?_⟩, hok⟩
  · rintro ⟨h401, -, -⟩
    right
    cases hv : verifyGithubSignature (r.Header.Get (ascii "x-hub-signature")) cfg.githubSecret
      body with
    | false => rfl
    | true => exact absurd h401 (hok hv).1
  · intro h
    have hv : verifyGithubSignature (r.Header.Get (ascii "x-hub-signature")) cfg.githubSecret body
        = false := by
      rcases h with h | h
      · exact hv0 (Get_nil_of_not_present _ _ h)
      · exact h
    exact handler_of_not_auth cfg r body hm hb (hauth.trans hv)

/-- C3, amended: without a secret, a POST request whose body was read is
answered 401 without decode or publish exactly when the value `Header.Get`
returns for the signature header is not empty; when it is empty (the header is
absent, or present with an empty value) the handler goes on to the ping check
and the decode. -/
theorem no_secret_policy (cfg : Config) (r : http.Request) (body : Bytes)
    (hs : cfg.githubSecret = []) (hm : r.Method = ascii "POST") (hb : r.Body = some body) :
    (((handler cfg r).status = 401 ∧ (handler cfg r).decoded = false
          ∧ (handler cfg r).publishCalls = []) ↔
        r.Header.Get (ascii "x-hub-signature") ≠ [])
      ∧ (r.Header.Get (ascii "x-hub-signature") = [] →
          (handler cfg r).status ≠ 401 ∧ handler cfg r = route cfg r body [.readBody]) := by
  have hok : r.Header.Get (ascii "x-hub-signature") = [] →
      (handler cfg r).status ≠ 401 ∧ handler cfg r = route cfg r body [.readBody] := by
    intro h0
    have ha : passesAuth cfg.githubSecret (r.Header.Get (ascii "x-hub-signature")) body = true := by
      simp [passesAuth, hs, h0]
    have h := handler_of_auth cfg r body hm hb ha
    simp only [hs, bne_self_eq_false, Bool.false_eq_true, ↓reduceIte] at h
    rw [h]
    exact ⟨route_status_ne_401 _ _ _ _, rfl⟩
  refine ⟨⟨?_, ?_⟩, hok⟩
  · rintro ⟨h401, -, -⟩ h0
    exact (hok h0).1 h401
  · intro h
    have ha : passesAuth cfg.githubSecret (r.Header.Get (ascii "x-hub-signature")) body = false := by
      simp [passesAuth, hs, h]
    exact handler_of_not_auth cfg r body hm hb ha

/-- C4, amended: a POST request whose body was read and whose event type is
`ping` is never decoded or published; it is answered 200 when it passes the
signature policy and 401 when it does not. -/
theorem ping_after_auth (cfg : Config) (r : http.Request) (body : Bytes)
    (hm : r.Method = ascii "POST") (hb : r.Body = some body)
    (he : r.Header.Get (ascii "x-github-event") = ascii "ping") :
    (handler cfg r).decoded = false ∧ (handler cfg r).publishCalls = []
      ∧ (passesAuth cfg.githubSecret (r.Header.Get (ascii "x-hub-signature")) body = true →
          (handler cfg r).status = 200)
      ∧ (passesAuth cfg.githubSecret (r.Header.Get (ascii "x-hub-signature")) body = false →
          (handler cfg r).status = 401) := by
  cases ha : passesAuth cfg.githubSecret (r.Header.Get (ascii "x-hub-signature")) body with
  | false =>
    have h := handler_of_not_auth cfg r body hm hb ha
    exact ⟨h.2.1, h.2.2, (by intro hc; cases hc), fun _ => h.1⟩
  | true =>
    rw [handler_of_auth cfg r body hm hb ha, route_ping cfg r body _ he]
    refine ⟨?_, ?_, fun _ => rfl, (by intro hc; cases hc)⟩
    · split_ifs <;> rfl
    · split_ifs <;> rfl

/-- C6: every call of `sc.Publish` passes the request body as it was read as
payload, the same bytes the signature was verified on when a secret is
configured, and there is at most one call per request. -/
theorem publish_payload_is_body (cfg : Config) (r : http.Request) :
    (∀ c ∈ (handler cfg r).publishCalls,
        r.Body = some c.2
          ∧ (cfg.githubSecret ≠ [] →
              verifyGithubSignature (r.Header.Get (ascii "x-hub-signature")) cfg.githubSecret c.2
                = true))
      ∧ (handler cfg r).publishCalls.length ≤ 1 := by
  rcases handler_publishCalls cfg r with h | ⟨ch, body, hb, hp, -, ha⟩
  · rw [h]; simp
  · rw [hp]
    refine ⟨?_, by simp⟩
    intro c hc
    simp only [List.mem_singleton] at hc
    subst hc
    refine ⟨hb, ?_⟩
    intro hs
    simp only [passesAuth, bne_iff_ne, ne_eq, hs, not_false_eq_true, ↓reduceIte,
      Bool.and_eq_true] at ha
    exact ha.2

/-- C9: a request whose method is not `POST` is answered 405 whatever its
headers, its body and the secret; the handler has no effect at all: the body
is not read, no signature is verified, nothing is decoded or published. -/
theorem method_not_allowed (cfg : Config) (r : http.Request) (hm : r.Method ≠ ascii "POST") :
    (handler cfg r).status = 405 ∧ (handler cfg r).effects = []
      ∧ (handler cfg r).decoded = false ∧ (handler cfg r).publishCalls = [] := by
  have h : handler cfg r = ⟨some 405, []⟩ := by
    unfold handler
    simp [hm]
  rw [h]
  exact ⟨rfl, rfl, rfl, rfl⟩


/-! ## Decoding the body -/

theorem storeEvent_of_other (v : json.Value) (cur : webhookEvent)
    (ho : v.isObject = false) (hn : v.isNull = false) : (json.storeEvent v cur).2 = true := by
  cases v <;> simp_all [json.storeEvent, json.Value.isObject, json.Value.isNull]

theorem storeEvent_fold_no_member (ms : List (Bytes × json.Value)) (acc : webhookEvent × Bool)
    (hk : ∀ m ∈ ms, json.findField m.1 [ascii "Repository"] 0 none = none) :
    ms.foldl (fun acc m =>
      match json.findField m.1 [ascii "Repository"] 0 none with
      | some 0 =>
        let r := json.storeRepository m.2 acc.1.Repository
        ({ acc.1 with Repository := r.1 }, acc.2 || r.2)
      | _ => acc) acc = acc := by
  induction ms generalizing acc with
  | nil => rfl
  | cons m ms ih =>
    have h1 := hk m (List.mem_cons_self _ _)
    simp only [List.foldl_cons, h1]
    exact ih acc fun x hx => hk x (List.mem_cons_of_mem _ hx)

theorem Unmarshal_of_invalid (body : Bytes) (evt : webhookEvent)
    (hv : json.checkValid body = false) :
    json.Unmarshal body evt = (evt, some .SyntaxError) := by
  simp [json.Unmarshal, hv]

theorem Unmarshal_of_value (body : Bytes) (evt : webhookEvent) (v : json.Value)
    (hv : json.checkValid body = true) (hd : json.decodeValue body = some v) :
    json.Unmarshal body evt =
      ((json.storeEvent v evt).1,
        if (json.storeEvent v evt).2 then some .UnmarshalTypeError else none) := by
  simp [json.Unmarshal, hv, hd]

theorem Unmarshal_error_of_other (body : Bytes) (evt : webhookEvent)
    (h : json.checkValid body = false
      ∨ ∃ v, json.decodeValue body = some v ∧ v.isObject = false ∧ v.isNull = false) :
    (json.Unmarshal body evt).2.isSome = true := by
  cases hv : json.checkValid body with
  | false => simp [Unmarshal_of_invalid body evt hv]
  | true =>
    rcases h with h | ⟨v, hd, ho, hn⟩
    · rw [hv] at h; cases h
    · simp [Unmarshal_of_value body evt v hv hd, storeEvent_of_other v evt ho hn]

theorem Unmarshal_null (body : Bytes) (evt : webhookEvent)
    (hv : json.checkValid body = true) (hd : json.decodeValue body = some .null) :
    json.Unmarshal body evt = (evt, none) := by
  simp [Unmarshal_of_value body evt _ hv hd, json.storeEvent]

theorem Unmarshal_no_member (body : Bytes) (evt : webhookEvent) (ms : List (Bytes × json.Value))
    (hv : json.checkValid body = true) (hd : json.decodeValue body = some (.object ms))
    (hk : ∀ m ∈ ms, json.findField m.1 [ascii "Repository"] 0 none = none) :
    json.Unmarshal body evt = (evt, none) := by
  have h : json.storeEvent (.object ms) evt = (evt, false) := by
    simp only [json.storeEvent]
    exact storeEvent_fold_no_member ms (evt, false) hk
  simp [Unmarshal_of_value body evt _ hv hd, h]

theorem route_published (cfg : Config) (r : http.Request) (body : Bytes) (done : List Effect)
    (he : r.Header.Get (ascii "x-github-event") ≠ ascii "ping")
    (hu : (json.Unmarshal body webhookEvent.zero).2 = none)
    (hx : (template.Execute cfg.channelTmpl
      { Owner := (json.Unmarshal body webhookEvent.zero).1.Repository.Owner.Login,
        Repo := (json.Unmarshal body webhookEvent.zero).1.Repository.Name,
        Event := r.Header.Get (ascii "x-github-event") }).2 = false) :
    (route cfg r body done).effects = done ++ [.unmarshal, .execute,
      .publish (template.Execute cfg.channelTmpl
        { Owner := (json.Unmarshal body webhookEvent.zero).1.Repository.Owner.Login,
          Repo := (json.Unmarshal body webhookEvent.zero).1.Repository.Name,
          Event := r.Header.Get (ascii "x-github-event") }).1 body] := by
  simp only [route]
  simp only [beq_iff_eq, he, hu, hx, ↓reduceIte, Option.isSome_none, Bool.false_eq_true]
  split_ifs <;> rfl

theorem publishCalls_of_effects (res : Result) (done : List Effect) (ch p : Bytes)
    (hd : done = [.readBody] ∨ done = [.readBody, .verifySignature])
    (h : res.effects = done ++ [.unmarshal, .execute, .publish ch p]) :
    res.publishCalls = [(ch, p)] := by
  rcases hd with rfl | rfl <;> simp [Result.publishCalls, h]

/-- C7, amended: a POST request that passes the signature policy and is not a
ping is answered 422 without a publish when its body is not valid JSON or is a
JSON array, string, number or boolean. A body that is the JSON value `null` is
decoded without error and is not answered 422. Every body that is valid JSON
has a value, so these cases and the objects are all the bodies there are. -/
theorem non_object_body_rejected (cfg : Config) (r : http.Request) (body : Bytes)
    (hm : r.Method = ascii "POST") (hb : r.Body = some body)
    (ha : passesAuth cfg.githubSecret (r.Header.Get (ascii "x-hub-signature")) body = true)
    (he : r.Header.Get (ascii "x-github-event") ≠ ascii "ping") :
    ((json.checkValid body = false
          ∨ ∃ v, json.decodeValue body = some v ∧ v.isObject = false ∧ v.isNull = false) →
        (handler cfg r).status = 422 ∧ (handler cfg r).decoded = true
          ∧ (handler cfg r).publishCalls = [])
      ∧ (json.checkValid body = true → json.decodeValue body = some .null →
          json.Unmarshal body webhookEvent.zero = (webhookEvent.zero, none)
            ∧ (handler cfg r).status ≠ 422)
      ∧ (json.checkValid body = true → ∃ v, json.decodeValue body = some v) := by
  rw [handler_of_auth cfg r body hm hb ha]
  refine ⟨?_, ?_, decodeValue_of_checkValid body⟩
  · intro h
    rw [route_unmarshal_error cfg r body _ he (Unmarshal_error_of_other body _ h)]
    split_ifs <;> exact ⟨rfl, rfl, rfl⟩
  · intro hv hd
    have hu := Unmarshal_null body webhookEvent.zero hv hd
    refine ⟨hu, (route_unmarshal_ok cfg r body _ he ?_).1⟩
    rw [hu]

/-- C8, amended: for a POST request that passes the signature policy and is
not a ping, the answer is 422 exactly when `json.Unmarshal` returns an error.
Missing members are no error: a body that is a JSON object without a
`repository` member is decoded to the empty owner and repository name, is not
answered 422, and when the template renders, the body is published once under
the channel rendered from those empty strings and the event type. -/
theorem missing_members_not_rejected (cfg : Config) (r : http.Request) (body : Bytes)
    (hm : r.Method = ascii "POST") (hb : r.Body = some body)
    (ha : passesAuth cfg.githubSecret (r.Header.Get (ascii "x-hub-signature")) body = true)
    (he : r.Header.Get (ascii "x-github-event") ≠ ascii "ping") :
    ((handler cfg r).status = 422 ↔ (json.Unmarshal body webhookEvent.zero).2.isSome = true)
      ∧ ∀ ms, json.checkValid body = true → json.decodeValue body = some (.object ms) →
          (∀ m ∈ ms, json.findField m.1 [ascii "Repository"] 0 none = none) →
          json.Unmarshal body webhookEvent.zero = (webhookEvent.zero, none)
            ∧ (handler cfg r).status ≠ 422
            ∧ ((template.Execute cfg.channelTmpl
                  ⟨[], [], r.Header.Get (ascii "x-github-event")⟩).2 = false →
                (handler cfg r).publishCalls =
                  [((template.Execute cfg.channelTmpl
                      ⟨[], [], r.Header.Get (ascii "x-github-event")⟩).1, body)]) := by
  rw [handler_of_auth cfg r body hm hb ha]
  constructor
  · constructor
    · intro h422
      cases hu : (json.Unmarshal body webhookEvent.zero).2 with
      | none => exact absurd h422 (route_unmarshal_ok cfg r body _ he hu).1
      | some e => rfl
    · intro hu
      rw [route_unmarshal_error cfg r body _ he hu]
      rfl
  · intro ms hv hd hk
    have hu := Unmarshal_no_member body webhookEvent.zero ms hv hd hk
    have hu2 : (json.Unmarshal body webhookEvent.zero).2 = none := by rw [hu]
    refine ⟨hu, (route_unmarshal_ok cfg r body _ he hu2).1, ?_⟩
    intro hx
    have hx2 : (template.Execute cfg.channelTmpl
        { Owner := (json.Unmarshal body webhookEvent.zero).1.Repository.Owner.Login,
          Repo := (json.Unmarshal body webhookEvent.zero).1.Repository.Name,
          Event := r.Header.Get (ascii "x-github-event") }).2 = false := by
      rw [hu]; exact hx
    have heff := route_published cfg r body
      (if cfg.githubSecret != [] then [.readBody, .verifySignature] else [.readBody]) he hu2 hx2
    rw [hu] at heff
    refine publishCalls_of_effects _ _ _ _ ?_ heff
    split_ifs
    · right; rfl
    · left; rfl

/-- C10: a POST request whose body was read, which passes the signature
policy, is not a ping, is decoded and whose channel is rendered, reaches the
call of `sc.Publish`; and whenever the handler calls `sc.Publish`, that is the
only call, and the answer is 503 when the call returns an error and 200 when
it returns none. -/
theorem publish_result_status (cfg : Config) (r : http.Request) :
    (∀ body, r.Method = ascii "POST" → r.Body = some body →
        passesAuth cfg.githubSecret (r.Header.Get (ascii "x-hub-signature")) body = true →
        r.Header.Get (ascii "x-github-event") ≠ ascii "ping" →
        (json.Unmarshal body webhookEvent.zero).2 = none →
        (template.Execute cfg.channelTmpl
          { Owner := (json.Unmarshal body webhookEvent.zero).1.Repository.Owner.Login,
            Repo := (json.Unmarshal body webhookEvent.zero).1.Repository.Name,
            Event := r.Header.Get (ascii "x-github-event") }).2 = false →
        ∃ ch, (handler cfg r).publishCalls = [(ch, body)])
      ∧ ∀ ch p, (ch, p) ∈ (handler cfg r).publishCalls →
          (handler cfg r).publishCalls = [(ch, p)]
            ∧ (cfg.Publish ch p = true → (handler cfg r).status = 503)
            ∧ (cfg.Publish ch p = false → (handler cfg r).status = 200) := by
  constructor
  · intro body hm hb ha he hu hx
    rw [handler_of_auth cfg r body hm hb ha]
    have heff := route_published cfg r body
      (if cfg.githubSecret != [] then [.readBody, .verifySignature] else [.readBody]) he hu hx
    refine ⟨_, publishCalls_of_effects _ _ _ _ ?_ heff⟩
    split_ifs
    · right; rfl
    · left; rfl
  · intro ch p h
    rcases handler_publishCalls cfg r with h0 | ⟨ch1, body, -, hp, hst, -⟩
    · rw [h0] at h; simp at h
    · rw [hp] at h
      simp only [List.mem_singleton, Prod.mk.injEq] at h
      obtain ⟨rfl, rfl⟩ := h
      refine ⟨hp, ?_, ?_⟩
      · intro he; rw [hst, he]; rfl
      · intro he; rw [hst, he]; rfl


/-! ## Instances -/

set_option maxRecDepth 1000000 in
/-- An instance of C2: with the secret `s`, a request without a signature header is
answered 401, and a request signed with the HMAC of its body is not. -/
theorem secret_configured_policy_witness :
    (handler secretConfig (postRequest (ascii "push") (ascii "[]"))).status = 401
      ∧ (handler secretConfig
          (signedRequest (ascii "push") exampleSignature (ascii "[]"))).status ≠ 401 :=
  ⟨((secret_configured_policy secretConfig (postRequest (ascii "push") (ascii "[]")) (ascii "[]")
      (by decide) rfl rfl).1.mpr (Or.inl (by decide))).1,
    ((secret_configured_policy secretConfig
      (signedRequest (ascii "push") exampleSignature (ascii "[]")) (ascii "[]")
      (by decide) rfl rfl).2 (by decide)).1⟩

set_option maxRecDepth 1000000 in
/-- C3 fails as stated: without a secret, a request whose signature header is present
with an empty value is not answered 401; it is decoded and published. -/
theorem no_secret_policy_counterexample :
    (openConfig defaultTmpl).githubSecret = []
      ∧ (signedRequest (ascii "push") [] (ascii "\x7b\x7d")).Header.present
          (ascii "x-hub-signature") = true
      ∧ (handler (openConfig defaultTmpl)
          (signedRequest (ascii "push") [] (ascii "\x7b\x7d"))).status = 200
      ∧ (handler (openConfig defaultTmpl)
          (signedRequest (ascii "push") [] (ascii "\x7b\x7d"))).publishCalls
          = [(ascii "github.events", ascii "\x7b\x7d")] := by
  decide

set_option maxRecDepth 1000000 in
/-- An instance of C3 as amended: without a secret, a request with a signature
header of value `x` is answered 401. -/
theorem no_secret_policy_witness :
    (handler (openConfig defaultTmpl)
        (signedRequest (ascii "push") (ascii "x") (ascii "\x7b\x7d"))).status = 401 :=
  ((no_secret_policy (openConfig defaultTmpl)
    (signedRequest (ascii "push") (ascii "x") (ascii "\x7b\x7d")) (ascii "\x7b\x7d")
    rfl rfl rfl).1.mpr (by decide)).1

set_option maxRecDepth 1000000 in
/-- C4 fails as stated: with a secret configured, a ping request without a signature
is a POST request whose body was read, and it is answered 401, not 200. -/
theorem ping_counterexample :
    (postRequest (ascii "ping") []).Method = ascii "POST"
      ∧ (postRequest (ascii "ping") []).Body = some []
      ∧ (postRequest (ascii "ping") []).Header.Get (ascii "x-github-event") = ascii "ping"
      ∧ (handler secretConfig (postRequest (ascii "ping") [])).status = 401 := by
  decide

set_option maxRecDepth 1000000 in
/-- An instance of C4 as amended: without a secret, a ping request without a signature
is answered 200. -/
theorem ping_after_auth_witness :
    (handler (openConfig defaultTmpl) (postRequest (ascii "ping") [])).status = 200 :=
  (ping_after_auth (openConfig defaultTmpl) (postRequest (ascii "ping") []) [] rfl rfl
    (by decide)).2.2.1 (by decide)

set_option maxRecDepth 1000000 in
/-- C5 fails on the code: the template `{{.Owner}}.{{.Repo}}.{{.Event}}` is the one
parsed here, and it renders the three fields HTML-escaped. For the specification's
example the channel is `o.r.push`; but for the repository name `R&D` the body is
published under `o.R&amp;D.push`, which is not the text `o.R&D.push`. -/
theorem channel_is_html_escaped :
    template.Parse (ascii "\x7b\x7b.Owner\x7d\x7d.\x7b\x7b.Repo\x7d\x7d.\x7b\x7b.Event\x7d\x7d")
        = some ownerRepoEventTmpl
      ∧ (∀ data : channelTmplVars, template.Execute ownerRepoEventTmpl data
          = (template.htmlEscaper data.Owner ++ (ascii "." ++ (template.htmlEscaper data.Repo
              ++ (ascii "." ++ (template.htmlEscaper data.Event ++ [])))), false))
      ∧ template.htmlEscaper (ascii "&<>\"\x27+") = ascii "&amp;&lt;&gt;&#34;&#39;&#43;"
      ∧ (handler (openConfig ownerRepoEventTmpl)
          (postRequest (ascii "push") exampleBody)).publishCalls
          = [(ascii "o.r.push", exampleBody)]
      ∧ (handler (openConfig ownerRepoEventTmpl)
          (postRequest (ascii "push") ampersandBody)).publishCalls
          = [(ascii "o.R&amp;D.push", ampersandBody)]
      ∧ ascii "o.R&amp;D.push" ≠ ascii "o" ++ ascii "." ++ ascii "R&D" ++ ascii "." ++ ascii "push" := by
  refine ⟨by decide, ?_, by decide, by decide, by decide, by decide⟩
  intro data
  have h1 : template.lookupField data (ascii "Owner") = some data.Owner := by
    simp [template.lookupField]
  have h2 : template.lookupField data (ascii "Repo") = some data.Repo := by
    have : (ascii "Repo" == ascii "Owner") = false := by decide
    simp [template.lookupField, this]
  have h3 : template.lookupField data (ascii "Event") = some data.Event := by
    have e1 : (ascii "Event" == ascii "Owner") = false := by decide
    have e2 : (ascii "Event" == ascii "Repo") = false := by decide
    simp [template.lookupField, e1, e2]
  simp only [ownerRepoEventTmpl, template.Execute, h1, h2, h3]

set_option maxRecDepth 1000000 in
/-- An instance of C6: the body `{}` is published, and it is the body of the
request. -/
theorem publish_payload_is_body_witness :
    (ascii "github.events", ascii "\x7b\x7d")
        ∈ (handler (openConfig defaultTmpl)
            (postRequest (ascii "push") (ascii "\x7b\x7d"))).publishCalls
      ∧ (postRequest (ascii "push") (ascii "\x7b\x7d")).Body = some (ascii "\x7b\x7d") :=
  ⟨by decide,
    ((publish_payload_is_body (openConfig defaultTmpl)
      (postRequest (ascii "push") (ascii "\x7b\x7d"))).1
      (ascii "github.events", ascii "\x7b\x7d") (by decide)).1⟩

set_option maxRecDepth 1000000 in
/-- C7 fails as stated: the body `null` passes the signature policy, is valid JSON and
is not an object, and it is answered 200 and published. -/
theorem null_body_counterexample :
    passesAuth (openConfig defaultTmpl).githubSecret
        ((postRequest (ascii "push") (ascii "null")).Header.Get (ascii "x-hub-signature"))
        (ascii "null") = true
      ∧ json.checkValid (ascii "null") = true
      ∧ (json.decodeValue (ascii "null")).map json.Value.isObject = some false
      ∧ (handler (openConfig defaultTmpl) (postRequest (ascii "push") (ascii "null"))).status
          = 200
      ∧ (handler (openConfig defaultTmpl)
          (postRequest (ascii "push") (ascii "null"))).publishCalls
          = [(ascii "github.events", ascii "null")] := by
  decide

set_option maxRecDepth 1000000 in
/-- An instance of C7 as amended: the body `[]` is answered 422. -/
theorem non_object_body_rejected_witness :
    (handler (openConfig defaultTmpl) (postRequest (ascii "push") (ascii "[]"))).status = 422 :=
  ((non_object_body_rejected (openConfig defaultTmpl) (postRequest (ascii "push") (ascii "[]"))
    (ascii "[]") rfl rfl (by decide) (by decide)).1
    (Or.inr ⟨.array [], by rfl, rfl, rfl⟩)).1

set_option maxRecDepth 1000000 in
/-- C8 fails as stated: the bodies `{}` and `{"repository":{"owner":{}}}` are JSON
objects without the expected members; they are decoded to an empty owner and repository
name without error, answered 200 and published. -/
theorem missing_members_counterexample :
    json.checkValid (ascii "\x7b\x7d") = true
      ∧ json.Unmarshal (ascii "\x7b\x7d") webhookEvent.zero = (webhookEvent.zero, none)
      ∧ (handler (openConfig defaultTmpl)
          (postRequest (ascii "push") (ascii "\x7b\x7d"))).status = 200
      ∧ (handler (openConfig defaultTmpl)
          (postRequest (ascii "push") (ascii "\x7b\x7d"))).publishCalls
          = [(ascii "github.events", ascii "\x7b\x7d")]
      ∧ json.Unmarshal (ascii "\x7b\"repository\":\x7b\"owner\":\x7b\x7d\x7d\x7d")
          webhookEvent.zero = (webhookEvent.zero, none)
      ∧ (handler (openConfig defaultTmpl)
          (postRequest (ascii "push")
            (ascii "\x7b\"repository\":\x7b\"owner\":\x7b\x7d\x7d\x7d"))).status = 200
      ∧ (handler (openConfig defaultTmpl)
          (postRequest (ascii "push")
            (ascii "\x7b\"repository\":\x7b\"owner\":\x7b\x7d\x7d\x7d"))).publishCalls
          = [(ascii "github.events",
              ascii "\x7b\"repository\":\x7b\"owner\":\x7b\x7d\x7d\x7d")] := by
  decide

set_option maxRecDepth 1000000 in
/-- An instance of C8 as amended: the body `{"id":1}` has no `repository` member and
is published under `..push`. -/
theorem missing_members_not_rejected_witness :
    (handler (openConfig ownerRepoEventTmpl)
        (postRequest (ascii "push") (ascii "\x7b\"id\":1\x7d"))).publishCalls
      = [(ascii "..push", ascii "\x7b\"id\":1\x7d")] :=
  ((missing_members_not_rejected (openConfig ownerRepoEventTmpl)
    (postRequest (ascii "push") (ascii "\x7b\"id\":1\x7d")) (ascii "\x7b\"id\":1\x7d")
    rfl rfl (by decide) (by decide)).2
    [(ascii "id", .number (ascii "1"))] (by decide) (by rfl) (by decide)).2.2 (by decide)

set_option maxRecDepth 1000000 in
/-- An instance of C9: a GET request is answered 405. -/
theorem method_not_allowed_witness :
    (handler secretConfig ⟨ascii "GET", [], some (ascii "\x7b\x7d")⟩).status = 405 :=
  (method_not_allowed secretConfig ⟨ascii "GET", [], some (ascii "\x7b\x7d")⟩ (by decide)).1

set_option maxRecDepth 1000000 in
/-- An instance of C10: the body `{}` reaches the publish call; when the call fails the
answer is 503, when it succeeds 200. -/
theorem publish_result_status_witness :
    (∃ ch, (handler failingConfig (postRequest (ascii "push") (ascii "\x7b\x7d"))).publishCalls
        = [(ch, ascii "\x7b\x7d")])
      ∧ (handler failingConfig (postRequest (ascii "push") (ascii "\x7b\x7d"))).status = 503
      ∧ (handler (openConfig defaultTmpl)
          (postRequest (ascii "push") (ascii "\x7b\x7d"))).status = 200 :=
  ⟨(publish_result_status failingConfig (postRequest (ascii "push") (ascii "\x7b\x7d"))).1
      (ascii "\x7b\x7d") rfl rfl (by decide) (by decide) (by decide) (by decide),
    ((publish_result_status failingConfig (postRequest (ascii "push") (ascii "\x7b\x7d"))).2
      (ascii "github.events") (ascii "\x7b\x7d") (by decide)).2.1 rfl,
    ((publish_result_status (openConfig defaultTmpl)
      (postRequest (ascii "push") (ascii "\x7b\x7d"))).2
      (ascii "github.events") (ascii "\x7b\x7d") (by decide)).2.2 rfl⟩

end GithubWebhook
